import Mathlib

/-
Verification development for the Dashboard-generator core modules
(csv_analyzer.py, data_cleaner.py, data_merger.py).

A pandas DataFrame is embedded as a list of named, dtype-tagged columns over
a value type with an explicit missing marker (Val.na models NaN/NaT).
Machine floats are modelled as exact rationals; pandas timestamps as integers
(the date encoding y*10000 + m*100 + d is injective and order-preserving on
valid dates, so equality and min/max of encoded dates agree with equality and
min/max of the timestamps they stand for).  pd.to_datetime with a mixed format
either parses every non-missing element or raises (the raise is caught by the
callers and treated as not-a-datetime); it is modelled by parseDate below,
which accepts ISO-like day strings, zero-padded or not, so that distinct
strings can denote the equal timestamp, exactly as in pandas.
-/

/-- A cell value.  na models a missing value (NaN / NaT). -/
inductive Val where
  | na : Val
  | num : Rat → Val
  | str : String → Val
  | dt : Int → Val
deriving DecidableEq, Repr

/-- Column dtype: float/int, object/str, or datetime64. -/
inductive DKind where
  | numK : DKind
  | strK : DKind
  | dtK : DKind
deriving DecidableEq, Repr

/-- One named column of a DataFrame. -/
structure ColumnD where
  name : String
  dtype : DKind
  vals : List Val
deriving DecidableEq, Repr

/-- A DataFrame: a row count and a list of columns (each column of a
well-formed frame has vals of length nrows). -/
structure DF where
  nrows : Nat
  cols : List ColumnD
deriving DecidableEq, Repr

def Val.isNa : Val → Bool
  | .na => true
  | _ => false

/-- series.dropna(): the non-missing values of a column, in order. -/
def dropNa (vs : List Val) : List Val := vs.filter (fun v => !v.isNa)

/-- Distinct elements in order of first occurrence (used for nunique and
value_counts). -/
def firstOccs {α : Type} [DecidableEq α] (l : List α) : List α :=
  l.foldl (fun acc v => if v ∈ acc then acc else acc ++ [v]) []

/-- series.nunique() over an already dropna-ed list. -/
def nuniqueOf (vs : List Val) : Nat := (firstOccs vs).length

def valNums (vs : List Val) : List Rat :=
  vs.filterMap (fun v => match v with | .num q => some q | _ => none)

def valStrs (vs : List Val) : List String :=
  vs.filterMap (fun v => match v with | .str s => some s | _ => none)

def valDts (vs : List Val) : List Int :=
  vs.filterMap (fun v => match v with | .dt d => some d | _ => none)

/-- Split a character list on the dash character (the List Char analogue of
str.split, kept structural so that it evaluates inside the kernel). -/
def splitDash : List Char → List (List Char)
  | [] => [[]]
  | c :: rest =>
    if c = '-' then [] :: splitDash rest
    else
      match splitDash rest with
      | [] => [[c]]
      | g :: gs => (c :: g) :: gs

/-- Parse a nonempty all-digit character group as a natural number. -/
def digitsVal? (cs : List Char) : Option Nat :=
  if cs ≠ [] ∧ cs.all (fun c => c.isDigit) then
    some (cs.foldl (fun n c => 10 * n + (c.toNat - 48)) 0)
  else none

/-- Model of pd.to_datetime on a single string: ISO-like year-month-day
strings, zero-padded or not.  Distinct strings (2020-01-01 and 2020-1-1)
parse to the same encoded timestamp, as in pandas. -/
def parseDate (s : String) : Option Int :=
  match splitDash s.toList with
  | [y, m, d] =>
    match digitsVal? y, digitsVal? m, digitsVal? d with
    | some yn, some mn, some dn =>
      if 1 ≤ yn ∧ 1 ≤ mn ∧ mn ≤ 12 ∧ 1 ≤ dn ∧ dn ≤ 31 then
        some ((yn : Int) * 10000 + (mn : Int) * 100 + (dn : Int))
      else none
    | _, _, _ => none
  | _ => none

/-- pd.to_datetime over a list of strings: parses every element or fails as a
whole (the pandas call raises on the first unparseable element; the callers
catch the raise and treat the column as not-a-datetime). -/
def parseAll : List String → Option (List Int)
  | [] => some []
  | s :: rest =>
    match parseDate s, parseAll rest with
    | some d, some ds => some (d :: ds)
    | _, _ => none

/-- The in-place column write df[col] = parsed of csv_analyzer.classify_columns:
every string cell is replaced by its parsed timestamp; missing cells stay
missing (the assignment aligns on the index, dropped rows become NaT). -/
def matVals (vs : List Val) : List Val :=
  vs.map (fun v => match v with
    | .str t => match parseDate t with | some d => Val.dt d | none => Val.na
    | _ => Val.na)

def intMinD (l : List Int) : Int :=
  match l with
  | [] => 0
  | x :: xs => xs.foldl min x

def intMaxD (l : List Int) : Int :=
  match l with
  | [] => 0
  | x :: xs => xs.foldl max x

def ratMinD (l : List Rat) : Rat :=
  match l with
  | [] => 0
  | x :: xs => xs.foldl min x

def ratMaxD (l : List Rat) : Rat :=
  match l with
  | [] => 0
  | x :: xs => xs.foldl max x

/-- series.mean() of the non-missing values. -/
def ratMean (l : List Rat) : Rat := l.sum / (l.length : Rat)

/-- Sample variance (ddof = 1), the square of series.std(); none models the
NaN std of a single observation.  Metadata equality on std is equivalent to
metadata equality on the variance, which stays rational. -/
def sampleVar (l : List Rat) : Option Rat :=
  if l.length ≤ 1 then none
  else
    let m := ratMean l
    some ((l.map (fun x => (x - m) * (x - m))).sum / ((l.length : Rat) - 1))

/-- series.value_counts(): (value, count) pairs sorted by count descending,
ties kept in first-encounter order (insertion sort is stable). -/
def valueCounts (vs : List Val) : List (Val × Nat) :=
  let pairs := (firstOccs vs).map (fun v => (v, (vs.filter (fun w => w = v)).length))
  pairs.insertionSort (fun a b => b.2 ≤ a.2)

/-- value_counts().head(TOP_N_CATEGORIES) with TOP_N_CATEGORIES = 15. -/
def topValues (vs : List Val) : List (Val × Nat) := (valueCounts vs).take 15

/-- Column metadata produced by csv_analyzer.classify_columns.  Numeric min,
max, mean are exact rationals; std is carried as the sample variance;
datetime min and max are carried as encoded timestamps (str of equal
timestamps gives equal strings and conversely). -/
inductive MetaE where
  | emptyM : MetaE
  | numericM (nunique : Nat) (mean : Rat) (var : Option Rat) (min max : Rat) : MetaE
  | categoricalM (nunique : Nat) (top : List (Val × Nat)) : MetaE
  | datetimeM (nunique : Nat) (min max : Int) : MetaE
deriving DecidableEq, Repr

/-- csv_analyzer.classify_columns, one column.  Returns the column as it is
left in the caller frame (the datetime branch materializes parsed values in
place; every other branch leaves the column untouched) together with its
metadata.  The 70 percent parse-success threshold is automatic here: the
pandas call raises on any unparseable element (caught, treated as
not-a-datetime), so a successful parse covers 100 percent of the non-missing
values and the dtype datetime nunique is computed from the original string
series while min and max come from the parsed values. -/
def classifyColumn (c : ColumnD) : ColumnD × MetaE :=
  let s := dropNa c.vals
  if s.isEmpty then (c, .emptyM)
  else
    match c.dtype with
    | .strK =>
      match parseAll (valStrs s) with
      | some parsed =>
        ({ c with dtype := .dtK, vals := matVals c.vals },
         .datetimeM (nuniqueOf s) (intMinD parsed) (intMaxD parsed))
      | none =>
        (c, .categoricalM (nuniqueOf s) (topValues s))
    | .numK =>
      let nunique := nuniqueOf s
      let ratio : Rat := (nunique : Rat) / ((s.length : Nat) : Rat)
      if nunique ≤ 30 ∧ ratio < (3 : Rat) / 10 then
        (c, .categoricalM nunique (topValues s))
      else
        let nums := valNums s
        (c, .numericM nunique (ratMean nums) (sampleVar nums) (ratMinD nums) (ratMaxD nums))
    | .dtK =>
      let ds := valDts s
      (c, .datetimeM (nuniqueOf s) (intMinD ds) (intMaxD ds))

/-- csv_analyzer.classify_columns.  First component: the frame as the caller
sees it after the call (string columns that parse as datetimes are rewritten
in place, nothing else is touched).  Second component: the per-column
metadata mapping, in column order. -/
def classify_columns (df : DF) : DF × List (String × MetaE) :=
  let rs := df.cols.map classifyColumn
  ({ nrows := df.nrows, cols := rs.map Prod.fst },
   rs.map (fun r => (r.1.name, r.2)))

/-- The cell fits the dtype tag of its column (or is missing). -/
def valFits (k : DKind) (v : Val) : Bool :=
  match v with
  | .na => true
  | .num _ => k = DKind.numK
  | .str _ => k = DKind.strK
  | .dt _ => k = DKind.dtK

def colWfB (c : ColumnD) : Bool := c.vals.all (valFits c.dtype)

/-- No collapse of distinct raw strings under datetime parsing: if the column
is a string column whose non-missing values all parse, the number of distinct
strings equals the number of distinct parsed timestamps. -/
def collapseFreeB (c : ColumnD) : Bool :=
  match c.dtype with
  | .strK =>
    match parseAll (valStrs (dropNa c.vals)) with
    | some parsed => nuniqueOf (dropNa c.vals) == (firstOccs parsed).length
    | none => true
  | _ => true

/-- The column is not datetime-materialized by classify_columns: it is not a
string column whose non-missing values are nonempty and all parse. -/
def noMaterializeB (c : ColumnD) : Bool :=
  match c.dtype with
  | .strK =>
    (dropNa c.vals).isEmpty ||
      match parseAll (valStrs (dropNa c.vals)) with
      | some _ => false
      | none => true
  | _ => true

lemma dropNa_nil : dropNa [] = [] := rfl

lemma dropNa_cons_na (l : List Val) : dropNa (Val.na :: l) = dropNa l := rfl

lemma dropNa_cons_str (t : String) (l : List Val) :
    dropNa (Val.str t :: l) = Val.str t :: dropNa l := rfl

lemma dropNa_cons_dt (d : Int) (l : List Val) :
    dropNa (Val.dt d :: l) = Val.dt d :: dropNa l := rfl

lemma dropNa_cons_num (q : Rat) (l : List Val) :
    dropNa (Val.num q :: l) = Val.num q :: dropNa l := rfl

lemma matVals_cons_na (l : List Val) : matVals (Val.na :: l) = Val.na :: matVals l := rfl

lemma matVals_cons_str (t : String) (l : List Val) :
    matVals (Val.str t :: l) =
      (match parseDate t with | some d => Val.dt d | none => Val.na) :: matVals l := rfl

lemma valStrs_cons_na (l : List Val) : valStrs (Val.na :: l) = valStrs l := rfl

lemma valStrs_cons_str (t : String) (l : List Val) :
    valStrs (Val.str t :: l) = t :: valStrs l := rfl

lemma parseAll_cons (s : String) (ss : List String) :
    parseAll (s :: ss) =
      match parseDate s, parseAll ss with
      | some d, some ds => some (d :: ds)
      | _, _ => none := rfl

lemma valFits_strK_cases {v : Val} (h : valFits DKind.strK v = true) :
    v = Val.na ∨ ∃ t, v = Val.str t := by
  cases v with
  | na => exact Or.inl rfl
  | str t => exact Or.inr ⟨t, rfl⟩
  | num q => simp [valFits] at h
  | dt d => simp [valFits] at h

lemma dropNa_matVals (vs : List Val) (hwf : ∀ v ∈ vs, valFits DKind.strK v = true) :
    ∀ parsed : List Int, parseAll (valStrs (dropNa vs)) = some parsed →
      dropNa (matVals vs) = parsed.map Val.dt := by
  induction vs with
  | nil =>
    intro parsed hp
    simp only [dropNa_nil, valStrs, List.filterMap_nil, parseAll, Option.some.injEq] at hp
    subst hp
    rfl
  | cons v rest ih =>
    intro parsed hp
    have hwfr : ∀ w ∈ rest, valFits DKind.strK w = true :=
      fun w hw => hwf w (List.mem_cons_of_mem _ hw)
    rcases valFits_strK_cases (hwf v (List.mem_cons_self v rest)) with hna | ⟨t, ht⟩
    · subst hna
      rw [dropNa_cons_na] at hp
      rw [matVals_cons_na, dropNa_cons_na]
      exact ih hwfr parsed hp
    · subst ht
      rw [dropNa_cons_str, valStrs_cons_str, parseAll_cons] at hp
      rcases hpd : parseDate t with _ | d <;> rw [hpd] at hp
      · simp at hp
      · rcases hrest : parseAll (valStrs (dropNa rest)) with _ | ds <;> rw [hrest] at hp
        · simp at hp
        · simp only [Option.some.injEq] at hp
          subst hp
          rw [matVals_cons_str, hpd, dropNa_cons_dt, ih hwfr ds hrest]
          rfl

lemma valDts_map_dt (l : List Int) : valDts (l.map Val.dt) = l := by
  induction l with
  | nil => rfl
  | cons x xs ih =>
    simp only [List.map_cons, valDts, List.filterMap_cons] at ih ⊢
    rw [ih]

lemma firstOccs_map_inj {α β : Type} [DecidableEq α] [DecidableEq β] (f : α → β)
    (hf : Function.Injective f) (l : List α) :
    firstOccs (l.map f) = (firstOccs l).map f := by
  have key : ∀ (l : List α) (acc : List α),
      List.foldl (fun acc v => if v ∈ acc then acc else acc ++ [v]) (acc.map f) (l.map f) =
        (List.foldl (fun acc v => if v ∈ acc then acc else acc ++ [v]) acc l).map f := by
    intro l
    induction l with
    | nil => intro acc; rfl
    | cons a as ih =>
      intro acc
      simp only [List.map_cons, List.foldl_cons]
      by_cases hmem : a ∈ acc
      · rw [if_pos (List.mem_map_of_mem f hmem), if_pos hmem, ih]
      · rw [if_neg (fun hc => hmem ((List.mem_map_of_injective hf).mp hc)), if_neg hmem]
        have hx : acc.map f ++ [f a] = (acc ++ [a]).map f := by simp
        rw [hx, ih]
  have := key l []
  simpa [firstOccs] using this

lemma parseAll_ne_nil {ss : List String} {parsed : List Int}
    (hp : parseAll ss = some parsed) (hne : ss ≠ []) : parsed ≠ [] := by
  cases ss with
  | nil => exact absurd rfl hne
  | cons s rest =>
    rw [parseAll_cons] at hp
    rcases h1 : parseDate s with _ | d <;> rw [h1] at hp
    · simp at hp
    · rcases h2 : parseAll rest with _ | ds <;> rw [h2] at hp
      · simp at hp
      · simp only [Option.some.injEq] at hp
        subst hp
        simp

lemma valStrs_ne_nil_of_wf {vs : List Val} (hwf : ∀ v ∈ vs, valFits DKind.strK v = true)
    (hne : dropNa vs ≠ []) : valStrs (dropNa vs) ≠ [] := by
  induction vs with
  | nil => simp [dropNa_nil] at hne
  | cons v rest ih =>
    rcases valFits_strK_cases (hwf v (List.mem_cons_self v rest)) with hna | ⟨t, ht⟩
    · subst hna
      rw [dropNa_cons_na] at hne ⊢
      exact ih (fun w hw => hwf w (List.mem_cons_of_mem _ hw)) hne
    · subst ht
      rw [dropNa_cons_str, valStrs_cons_str]
      simp

/-- classifyColumn returns the column unchanged whenever the datetime
materialization branch of a string column is not taken. -/
lemma classifyColumn_fst_of_noMat (c : ColumnD) (h : noMaterializeB c = true) :
    (classifyColumn c).1 = c := by
  rcases c with ⟨nm, k, vs⟩
  cases k with
  | numK =>
    simp only [classifyColumn]
    split
    · rfl
    · split <;> rfl
  | dtK =>
    simp only [classifyColumn]
    split <;> rfl
  | strK =>
    simp only [noMaterializeB, Bool.or_eq_true] at h
    simp only [classifyColumn]
    split
    · rfl
    · rename_i hne
      split
      · rename_i parsed hp
        rcases h with h | h
        · rw [List.isEmpty_iff] at h
          exact absurd h (by simpa [List.isEmpty_iff] using hne)
        · rw [hp] at h
          simp at h
      · rfl

lemma dt_injective : Function.Injective Val.dt := by
  intro a b h
  injection h

lemma classifyColumn_strK_some (nm : String) (vs : List Val) (parsed : List Int)
    (hne : (dropNa vs).isEmpty = false)
    (hp : parseAll (valStrs (dropNa vs)) = some parsed) :
    classifyColumn ⟨nm, DKind.strK, vs⟩ =
      (⟨nm, DKind.dtK, matVals vs⟩,
       MetaE.datetimeM (nuniqueOf (dropNa vs)) (intMinD parsed) (intMaxD parsed)) := by
  simp only [classifyColumn, hne, Bool.false_eq_true, if_false, hp]

lemma classifyColumn_dtK (nm : String) (vs : List Val)
    (hne : (dropNa vs).isEmpty = false) :
    classifyColumn ⟨nm, DKind.dtK, vs⟩ =
      (⟨nm, DKind.dtK, vs⟩,
       MetaE.datetimeM (nuniqueOf (dropNa vs)) (intMinD (valDts (dropNa vs)))
         (intMaxD (valDts (dropNa vs)))) := by
  simp only [classifyColumn, hne, Bool.false_eq_true, if_false]

lemma noMaterializeB_eq_false {nm : String} {k : DKind} {vs : List Val}
    (h : noMaterializeB ⟨nm, k, vs⟩ = false) :
    k = DKind.strK ∧ (dropNa vs).isEmpty = false ∧
      ∃ parsed, parseAll (valStrs (dropNa vs)) = some parsed := by
  cases k with
  | numK => simp [noMaterializeB] at h
  | dtK => simp [noMaterializeB] at h
  | strK =>
    refine ⟨rfl, ?_⟩
    simp only [noMaterializeB, Bool.or_eq_false_iff] at h
    rcases hq : parseAll (valStrs (dropNa vs)) with _ | parsed
    · rw [hq] at h
      simp at h
    · rw [hq] at h
      exact ⟨h.1, parsed, rfl⟩

/-- One column of the idempotence claim: re-classifying the column that
classify_columns left in the frame reproduces both the column and the
metadata, provided datetime parsing does not collapse distinct strings. -/
lemma classifyColumn_idem (c : ColumnD) (hwf : colWfB c = true)
    (hcf : collapseFreeB c = true) :
    classifyColumn (classifyColumn c).1 = classifyColumn c := by
  by_cases hnm : noMaterializeB c = true
  · rw [classifyColumn_fst_of_noMat c hnm]
  · rcases c with ⟨nm, k, vs⟩
    obtain ⟨hk, hne, parsed, hp⟩ := noMaterializeB_eq_false (Bool.eq_false_iff.mpr hnm)
    subst hk
    have hwfv : ∀ v ∈ vs, valFits DKind.strK v = true := by
      simpa [colWfB, List.all_eq_true] using hwf
    have hdm : dropNa (matVals vs) = parsed.map Val.dt := dropNa_matVals vs hwfv parsed hp
    have hpne : parsed ≠ [] :=
      parseAll_ne_nil hp (valStrs_ne_nil_of_wf hwfv (by simpa [List.isEmpty_iff] using hne))
    have hne2 : (dropNa (matVals vs)).isEmpty = false := by
      rw [hdm]
      simpa [List.isEmpty_iff] using hpne
    have hnu : nuniqueOf (dropNa (matVals vs)) = nuniqueOf (dropNa vs) := by
      rw [hdm]
      have : firstOccs (parsed.map Val.dt) = (firstOccs parsed).map Val.dt :=
        firstOccs_map_inj Val.dt dt_injective parsed
      have hcf2 : nuniqueOf (dropNa vs) = (firstOccs parsed).length := by
        simp only [collapseFreeB, hp] at hcf
        simpa using hcf
      simp [nuniqueOf, this, hcf2.symm]
    rw [classifyColumn_strK_some nm vs parsed hne hp]
    rw [classifyColumn_dtK nm (matVals vs) hne2]
    rw [hnu, hdm, valDts_map_dt]

/-- A concrete frame with one string column whose two distinct raw strings
parse to the same timestamp (pandas parses 2020-01-01 and 2020-1-1 to equal
timestamps under a mixed format). -/
def dfDate : DF := ⟨2, [⟨"d", DKind.strK, [Val.str "2020-01-01", Val.str "2020-1-1"]⟩]⟩

/-- A concrete frame out of the reach of datetime materialization. -/
def dfNum : DF := ⟨2, [⟨"x", DKind.numK, [Val.num 1, Val.num 2]⟩,
  ⟨"s", DKind.strK, [Val.str "ny", Val.str "la"]⟩]⟩

/-- A concrete frame whose date column materializes without collapsing
distinct strings. -/
def dfDateOk : DF := ⟨2, [⟨"x", DKind.numK, [Val.num 1, Val.num 2]⟩,
  ⟨"d", DKind.strK, [Val.str "2020-01-01", Val.str "2020-01-02"]⟩]⟩

/-- C1 (counterexample): classification is not idempotent as claimed.  On a
table with the single string column [2020-01-01, 2020-1-1], the first run
materializes the parsed timestamps and reports distinct_count 2 (distinct raw
strings), while the second run reports distinct_count 1 (distinct parsed
timestamps), so the metadata of the two runs differ. -/
theorem classify_columns_not_idempotent :
    classify_columns (classify_columns dfDate).1 ≠ classify_columns dfDate := by
  decide

/-- C1 (amended): classification is idempotent on every well-formed table in
which datetime parsing does not collapse distinct raw strings of a
materialized string column: re-running classify_columns on the table the
first run left behind yields the identical frame and identical metadata for
every column (same kind, distinct_count, and kind-specific summary). -/
theorem classify_columns_idem (df : DF)
    (h : ∀ c ∈ df.cols, colWfB c = true ∧ collapseFreeB c = true) :
    classify_columns (classify_columns df).1 = classify_columns df := by
  have key : df.cols.map (fun c => classifyColumn (classifyColumn c).1) =
      df.cols.map classifyColumn :=
    List.map_congr_left (fun c hc => classifyColumn_idem c (h c hc).1 (h c hc).2)
  have h1 : ((df.cols.map classifyColumn).map Prod.fst).map classifyColumn =
      df.cols.map classifyColumn := by
    rw [List.map_map, List.map_map]
    calc df.cols.map (classifyColumn ∘ Prod.fst ∘ classifyColumn)
        = df.cols.map (fun c => classifyColumn (classifyColumn c).1) := by
          simp [Function.comp]
      _ = df.cols.map classifyColumn := key
  simp only [classify_columns]
  rw [h1]

/-- C1 (witness): the amended idempotence theorem applied to a concrete
two-column table with a numeric column and a non-collapsing date column. -/
theorem classify_columns_idem_witness :
    classify_columns (classify_columns dfDateOk).1 = classify_columns dfDateOk :=
  classify_columns_idem dfDateOk (by decide)

/-- C5 (counterexample): classify_columns does not leave the table passed by
the caller unchanged: on a table with a parseable string date column it
rewrites that column in place (dtype and values), so the caller-visible frame
differs from the input. -/
theorem classify_columns_mutates_caller :
    (classify_columns dfDate).1 ≠ dfDate := by
  decide

/-- C5 (amended): clean_dataframe copies its input up front and therefore
never mutates the caller frame; classify_columns leaves the caller frame
unchanged except for datetime materialization: whenever no string column
fully parses as dates, the frame the caller passed is returned untouched. -/
theorem classify_columns_no_mutation (df : DF)
    (h : ∀ c ∈ df.cols, noMaterializeB c = true) :
    (classify_columns df).1 = df := by
  rcases df with ⟨n, cols⟩
  simp only [classify_columns, List.map_map, DF.mk.injEq, true_and]
  calc cols.map (Prod.fst ∘ classifyColumn)
      = cols.map (fun c => (classifyColumn c).1) := by simp [Function.comp]
    _ = cols.map id := List.map_congr_left (fun c hc => classifyColumn_fst_of_noMat c (h c hc))
    _ = cols := List.map_id cols

/-- C5 (witness): the no-mutation theorem applied to a concrete table with a
numeric and an unparseable string column. -/
theorem classify_columns_no_mutation_witness :
    (classify_columns dfNum).1 = dfNum :=
  classify_columns_no_mutation dfNum (by decide)

/- ── data_merger.detect_candidate_keys ─────────────────────────── -/

/-- Lower-case a string (str.lower). -/
def lowerStr (s : String) : String := String.mk (s.toList.map Char.toLower)

/-- str.strip(): drop leading and trailing whitespace. -/
def stripStr (s : String) : String :=
  String.mk (((s.toList.dropWhile Char.isWhitespace).reverse.dropWhile
    Char.isWhitespace).reverse)

/-- str.endswith over character lists (kernel-evaluable). -/
def endsWithStr (s suf : String) : Bool := suf.toList.isSuffixOf s.toList

/-- The name heuristic of detect_candidate_keys: the lower-cased stripped
name ends with _id, equals id, ends with id, or ends with _key (the first
test is subsumed by the third, kept as in the source). -/
def isIdName (nm : String) : Bool :=
  endsWithStr nm "_id" || nm == "id" || endsWithStr nm "id" || endsWithStr nm "_key"

/-- Round half to even on exact rationals (Python round rounds the nearest
binary double half-to-even; on the exact values here the two agree and no
claim depends on the stored rounding). -/
def rhe (q : Rat) : Int :=
  let fl := q.floor
  let frac := q - (fl : Rat)
  if frac < (1 : Rat) / 2 then fl
  else if frac > (1 : Rat) / 2 then fl + 1
  else if fl % 2 = 0 then fl else fl + 1

/-- round(ratio, 4). -/
def roundTo4 (q : Rat) : Rat := ((rhe (q * 10000) : Int) : Rat) / 10000

/-- One candidate-key record; the reason field carries the branch-identifying
prefix of the source f-string (the interpolated percentage text is
presentation and omitted). -/
structure KeyCand where
  column : String
  key_type : String
  reason : String
  uniqueness : Rat
deriving DecidableEq, Repr

/-- The uniqueness ratio of detect_candidate_keys: distinct count of the
non-missing values divided by the total row count n = len(df), missing rows
included. -/
def ratioOf (n : Nat) (c : ColumnD) : Rat :=
  (nuniqueOf (dropNa c.vals) : Rat) / (n : Rat)

/-- data_merger.detect_candidate_keys, one column (n = len(df)).  Returns at
most one record per column: the id-name branch ends with continue in the
source, so a key-like numeric column never reaches the high-uniqueness
branch. -/
def detectEntry (n : Nat) (c : ColumnD) : Option KeyCand :=
  if (dropNa c.vals).isEmpty then none
  else
    let ratio := ratioOf n c
    let nm := stripStr (lowerStr c.name)
    if isIdName nm ∧ c.dtype = DKind.numK then
      if ratio > (95 : Rat) / 100 then
        some ⟨c.name, "primary", "Numeric ID column", roundTo4 ratio⟩
      else
        some ⟨c.name, "candidate", "Numeric ID column (FK?)", roundTo4 ratio⟩
    else if ratio > (9 : Rat) / 10 ∧ c.dtype = DKind.numK then
      some ⟨c.name, "candidate", "High-uniqueness numeric", roundTo4 ratio⟩
    else none

/-- data_merger.detect_candidate_keys (the unused filename parameter is
dropped). -/
def detect_candidate_keys (df : DF) : List KeyCand :=
  if df.nrows = 0 then []
  else df.cols.filterMap (detectEntry df.nrows)

/-- A fully unique numeric id column: ratio 1. -/
def dfKeys : DF := ⟨2, [⟨"x_id", DKind.numK, [Val.num 1, Val.num 2]⟩]⟩

/-- C3 (counterexample): a key-like numeric column with ratio 1 > 0.9 is
reported exactly once, under the id-name branch only; no high-uniqueness
record is produced for it, contradicting the claim that it appears under
both rule branches. -/
theorem detect_candidate_keys_single_branch :
    detect_candidate_keys dfKeys =
      [⟨"x_id", "primary", "Numeric ID column", 1⟩] := by
  with_unfolding_all decide

/-- C3 (amended): the two rules are exclusive, not independent.  A key-like
numeric column yields exactly one record from the id-name branch (primary
when ratio > 0.95, candidate otherwise) and is skipped by the high-uniqueness
rule; only a non-key-like numeric column with ratio > 0.9 yields the
high-uniqueness candidate record. -/
theorem detectEntry_branches (n : Nat) (c : ColumnD)
    (hnum : c.dtype = DKind.numK) (hne : (dropNa c.vals).isEmpty = false) :
    (isIdName (stripStr (lowerStr c.name)) = true →
      detectEntry n c = some ⟨c.name,
        if ratioOf n c > (95 : Rat) / 100 then "primary" else "candidate",
        if ratioOf n c > (95 : Rat) / 100 then "Numeric ID column" else "Numeric ID column (FK?)",
        roundTo4 (ratioOf n c)⟩) ∧
    (isIdName (stripStr (lowerStr c.name)) = false →
      detectEntry n c =
        if ratioOf n c > (9 : Rat) / 10 then
          some ⟨c.name, "candidate", "High-uniqueness numeric", roundTo4 (ratioOf n c)⟩
        else none) := by
  constructor
  · intro hid
    simp only [detectEntry, hne, Bool.false_eq_true, if_false, hid, hnum, and_self, if_true]
    by_cases hr : ratioOf n c > (95 : Rat) / 100
    · rw [if_pos hr, if_pos hr, if_pos hr]
    · rw [if_neg hr, if_neg hr, if_neg hr]
  · intro hid
    simp only [detectEntry, hne, Bool.false_eq_true, if_false, hid, hnum, false_and, and_true,
      if_false]

/-- C3 (witness): the branch theorem applied to the concrete id column of
dfKeys and to a non-key-like unique numeric column. -/
theorem detectEntry_branches_witness :
    detectEntry 2 ⟨"x_id", DKind.numK, [Val.num 1, Val.num 2]⟩ =
      some ⟨"x_id", "primary", "Numeric ID column", 1⟩ ∧
    detectEntry 2 ⟨"score", DKind.numK, [Val.num 1, Val.num 2]⟩ =
      some ⟨"score", "candidate", "High-uniqueness numeric", 1⟩ := by
  constructor
  · have h := (detectEntry_branches 2 ⟨"x_id", DKind.numK, [Val.num 1, Val.num 2]⟩
      rfl (by decide)).1 (by decide)
    rw [h]
    with_unfolding_all decide
  · have h := (detectEntry_branches 2 ⟨"score", DKind.numK, [Val.num 1, Val.num 2]⟩
      rfl (by decide)).2 (by decide)
    rw [h]
    with_unfolding_all decide

lemma length_filter_lt_of_mem {α : Type} (p : α → Bool) {l : List α} {a : α}
    (ha : a ∈ l) (hp : p a = false) : (l.filter p).length < l.length := by
  induction l with
  | nil => cases ha
  | cons x xs ih =>
    rcases List.mem_cons.mp ha with rfl | hmem
    · rw [List.filter_cons, hp]
      simp only [Bool.false_eq_true, if_false, List.length_cons]
      exact Nat.lt_succ_of_le (List.length_filter_le p xs)
    · rw [List.filter_cons]
      by_cases hx : p x = true
      · rw [hx]
        simp only [if_true, List.length_cons]
        exact Nat.succ_lt_succ (ih hmem)
      · rw [Bool.eq_false_iff.mpr hx]
        simp only [Bool.false_eq_true, if_false, List.length_cons]
        exact Nat.lt_succ_of_lt (ih hmem)

lemma firstOccs_length_le {α : Type} [DecidableEq α] (l : List α) :
    (firstOccs l).length ≤ l.length := by
  have key : ∀ (l acc : List α),
      (List.foldl (fun acc v => if v ∈ acc then acc else acc ++ [v]) acc l).length ≤
        acc.length + l.length := by
    intro l
    induction l with
    | nil => intro acc; simp
    | cons a as ih =>
      intro acc
      simp only [List.foldl_cons]
      by_cases hmem : a ∈ acc
      · rw [if_pos hmem]
        calc (List.foldl _ acc as).length ≤ acc.length + as.length := ih acc
          _ ≤ acc.length + (a :: as).length := by simp [Nat.le_succ_of_le]
      · rw [if_neg hmem]
        calc (List.foldl _ (acc ++ [a]) as).length ≤ (acc ++ [a]).length + as.length := ih _
          _ = acc.length + (a :: as).length := by simp [List.length_append]; omega
  simpa using key l []

/-- A key-like fully-unique-when-present numeric column with one missing row
out of three (more than 5 percent missing). -/
def colMissId : ColumnD := ⟨"a_id", DKind.numK, [Val.num 1, Val.num 2, Val.na]⟩

/-- C10: the uniqueness ratio of detect_candidate_keys divides the distinct
count of the non-missing values by the total row count, missing rows
included.  Hence every column with at least one missing value has ratio
strictly below 1, and a key-like numeric column that is fully unique among
its non-missing values but misses more than 5 percent of its rows falls to
ratio below 0.95 and is reported as candidate, never primary. -/
theorem detect_ratio_counts_missing :
    (∀ (n : Nat) (c : ColumnD), c.vals.length = n → Val.na ∈ c.vals →
      dropNa c.vals ≠ [] → ratioOf n c < 1) ∧
    (∀ (n : Nat) (c : ColumnD), c.vals.length = n → c.dtype = DKind.numK →
      isIdName (stripStr (lowerStr c.name)) = true →
      dropNa c.vals ≠ [] →
      nuniqueOf (dropNa c.vals) = (dropNa c.vals).length →
      20 * (c.vals.length - (dropNa c.vals).length) > n →
      detectEntry n c =
        some ⟨c.name, "candidate", "Numeric ID column (FK?)", roundTo4 (ratioOf n c)⟩) := by
  have hlt : ∀ (n : Nat) (c : ColumnD), c.vals.length = n → Val.na ∈ c.vals →
      dropNa c.vals ≠ [] → ratioOf n c < 1 := by
    intro n c hn hna hne
    have h1 : (dropNa c.vals).length < c.vals.length :=
      length_filter_lt_of_mem _ hna rfl
    have h2 : nuniqueOf (dropNa c.vals) ≤ (dropNa c.vals).length :=
      firstOccs_length_le _
    have hn0 : 0 < n := by
      rcases hm : c.vals with _ | _
      · rw [hm] at hne
        simp [dropNa_nil] at hne
      · omega
    have hmn : nuniqueOf (dropNa c.vals) < n := by omega
    rw [ratioOf, div_lt_one (by exact_mod_cast hn0)]
    exact_mod_cast hmn
  refine ⟨hlt, ?_⟩
  intro n c hn hnum hid hne hu hmiss
  have hdl : (dropNa c.vals).length ≤ c.vals.length := List.length_filter_le _ _
  have hn0 : 0 < n := by omega
  have hr95 : ¬ ratioOf n c > (95 : Rat) / 100 := by
    rw [ratioOf, hu, gt_iff_lt, div_lt_div_iff (by norm_num) (by exact_mod_cast hn0)]
    intro hcon
    have : (95 : Rat) * n < 100 * (dropNa c.vals).length := by linarith
    have hnat : 95 * n < 100 * (dropNa c.vals).length := by exact_mod_cast this
    omega
  have hneB : (dropNa c.vals).isEmpty = false := by
    simpa [List.isEmpty_iff] using hne
  simp only [detectEntry, hneB, Bool.false_eq_true, if_false, hid, hnum, and_self, if_true]
  rw [if_neg hr95]

/-- C10 (witness): the theorem applied to the concrete column a_id =
[1, 2, missing]: ratio 2/3 < 1 and the column is reported candidate. -/
theorem detect_ratio_counts_missing_witness :
    ratioOf 3 colMissId < 1 ∧
    detectEntry 3 colMissId =
      some ⟨"a_id", "candidate", "Numeric ID column (FK?)", roundTo4 (ratioOf 3 colMissId)⟩ :=
  ⟨detect_ratio_counts_missing.1 3 colMissId rfl (by decide) (by decide),
   detect_ratio_counts_missing.2 3 colMissId rfl rfl (by decide) (by decide) (by decide)
     (by decide)⟩

/- ── data_merger.auto_detect_relationships ─────────────────────── -/

/-- Per-column metadata entry of files_info (name, classified dtype label,
distinct count). -/
structure ColInfo where
  name : String
  dtype : String
  nunique : Nat
deriving DecidableEq, Repr

/-- One files_info record. -/
structure FileInfo where
  csv_file_id : String
  filename : String
  columns : List ColInfo
deriving DecidableEq, Repr

/-- A proposed relationship (the reason field carries the fixed prefix of the
source f-string; interpolated file names are presentation and omitted). -/
structure Relationship where
  from_csv : String
  from_column : String
  to_csv : String
  to_column : String
  confidence : Rat
  reason : String
deriving DecidableEq, Repr

/-- The dict comprehension name-to-column of auto_detect_relationships: a
later duplicate column name overwrites an earlier one. -/
def lookupCol (f : FileInfo) (nm : String) : Option ColInfo :=
  f.columns.reverse.find? (fun c => c.name == nm)

/-- The set intersection of the two dict key sets.  Python iterates a set in
an unspecified order; the model iterates the distinct names in first-file
order, and the dedup theorem below quantifies over arbitrary inputs, making
the outcome independent of that order. -/
def commonNames (f1 f2 : FileInfo) : List String :=
  (firstOccs (f1.columns.map (fun c => c.name))).filter
    (fun nm => f2.columns.any (fun c => c.name == nm))

/-- The key-likeness test of auto_detect_relationships (note _code is
accepted here, unlike in detect_candidate_keys). -/
def isKeyLikeName (nm : String) : Bool :=
  endsWithStr nm "_id" || nm == "id" || endsWithStr nm "id" ||
    endsWithStr nm "_key" || endsWithStr nm "_code"

/-- tuple(sorted([(id1, col), (id2, col)])): the unordered pair key used for
dedup (the column name is shared, so sorting the tuples sorts the ids). -/
def pairKeyOf (id1 id2 col : String) : (String × String) × String :=
  if id1 ≤ id2 then ((id1, id2), col) else ((id2, id1), col)

/-- The seen-set plus output accumulator of auto_detect_relationships. -/
structure RState where
  seen : List ((String × String) × String)
  rels : List Relationship
deriving Repr

/-- The checks of the inner column loop once both dict lookups succeed:
dtype equality, key-likeness, seen-pair dedup, then direction by higher
nunique (ties go to the first file) and emission with confidence 0.9. -/
def stepColGo (f1 f2 : FileInfo) (st : RState) (nm : String) (c1 c2 : ColInfo) : RState :=
  if c1.dtype ≠ c2.dtype then st
  else if ¬ isKeyLikeName (lowerStr nm) then st
  else
    let k := pairKeyOf f1.csv_file_id f2.csv_file_id nm
    if k ∈ st.seen then st
    else
      let pkfk := if c2.nunique ≤ c1.nunique then (f1, f2) else (f2, f1)
      { seen := st.seen ++ [k],
        rels := st.rels ++ [⟨pkfk.2.csv_file_id, nm, pkfk.1.csv_file_id, nm,
          (9 : Rat) / 10, "Matching key column"⟩] }

/-- The body of the inner column loop. -/
def stepCol (f1 f2 : FileInfo) (st : RState) (nm : String) : RState :=
  match lookupCol f1 nm, lookupCol f2 nm with
  | some c1, some c2 => stepColGo f1 f2 st nm c1 c2
  | _, _ => st

/-- One ordered file pair of the double loop. -/
def stepPair (st : RState) (p : FileInfo × FileInfo) : RState :=
  (commonNames p.1 p.2).foldl (stepCol p.1 p.2) st

/-- All index pairs i < j, in loop order. -/
def pairsOf : List FileInfo → List (FileInfo × FileInfo)
  | [] => []
  | f :: rest => (rest.map (fun g => (f, g))) ++ pairsOf rest

/-- data_merger.auto_detect_relationships.  The final sort is by confidence
descending; all confidences are 0.9, and insertion sort is stable, so the
sort is a permutation that the dedup-count theorem quotients out. -/
def auto_detect_relationships (files : List FileInfo) : List Relationship :=
  ((pairsOf files).foldl stepPair ⟨[], []⟩).rels.insertionSort
    (fun a b => b.confidence ≤ a.confidence)

/-- The unordered pair key recoverable from an emitted relationship. -/
def relKey (r : Relationship) : (String × String) × String :=
  pairKeyOf r.from_csv r.to_csv r.from_column

/-- How many proposed relationships connect the given unordered pair key. -/
def countKey (rels : List Relationship) (k : (String × String) × String) : Nat :=
  (rels.filter (fun r => relKey r = k)).length

lemma pairKeyOf_symm (a b col : String) : pairKeyOf a b col = pairKeyOf b a col := by
  unfold pairKeyOf
  rcases le_total a b with h | h
  · rw [if_pos h]
    by_cases hba : b ≤ a
    · rw [if_pos hba, le_antisymm h hba]
    · rw [if_neg hba]
  · rw [if_pos h]
    by_cases hab : a ≤ b
    · rw [if_pos hab, le_antisymm h hab]
    · rw [if_neg hab]

/-- The invariant tying the seen set to the emitted relationships: every pair
key accounts for exactly one emitted relationship once seen, none before. -/
def RInv (st : RState) : Prop :=
  ∀ k, countKey st.rels k = if k ∈ st.seen then 1 else 0

lemma countKey_append (rels : List Relationship) (r : Relationship) (k) :
    countKey (rels ++ [r]) k = countKey rels k + (if relKey r = k then 1 else 0) := by
  unfold countKey
  rw [List.filter_append, List.length_append]
  congr 1
  by_cases h : relKey r = k
  · simp [h]
  · simp [h]

lemma rinv_stepCol (f1 f2 : FileInfo) (st : RState) (nm : String) (hinv : RInv st) :
    RInv (stepCol f1 f2 st nm) := by
  unfold stepCol
  rcases h1 : lookupCol f1 nm with _ | c1
  · exact hinv
  rcases h2 : lookupCol f2 nm with _ | c2
  · exact hinv
  show RInv (stepColGo f1 f2 st nm c1 c2)
  unfold stepColGo
  by_cases hd : c1.dtype ≠ c2.dtype
  · rw [if_pos hd]; exact hinv
  rw [if_neg hd]
  by_cases hk : ¬ isKeyLikeName (lowerStr nm) = true
  · rw [if_pos hk]; exact hinv
  rw [if_neg hk]
  by_cases hseen : pairKeyOf f1.csv_file_id f2.csv_file_id nm ∈ st.seen
  · rw [if_pos hseen]; exact hinv
  rw [if_neg hseen]
  intro k
  dsimp only
  have hkey : relKey ⟨(if c2.nunique ≤ c1.nunique then (f1, f2) else (f2, f1)).2.csv_file_id, nm,
      (if c2.nunique ≤ c1.nunique then (f1, f2) else (f2, f1)).1.csv_file_id, nm,
      (9 : Rat) / 10, "Matching key column"⟩ =
        pairKeyOf f1.csv_file_id f2.csv_file_id nm := by
    by_cases hu : c2.nunique ≤ c1.nunique
    · rw [if_pos hu]
      exact pairKeyOf_symm f2.csv_file_id f1.csv_file_id nm
    · rw [if_neg hu]
      rfl
  rw [countKey_append, hkey]
  by_cases hkk : k = pairKeyOf f1.csv_file_id f2.csv_file_id nm
  · rw [hkk, hinv _, if_neg hseen, if_pos rfl, if_pos (by simp)]
  · rw [if_neg (fun hc => hkk hc.symm), hinv k, Nat.add_zero]
    by_cases hks : k ∈ st.seen
    · rw [if_pos hks, if_pos (by simp [List.mem_append, hks])]
    · rw [if_neg hks, if_neg (by simp [List.mem_append, hks, hkk])]

lemma rinv_foldCols (f1 f2 : FileInfo) (names : List String) :
    ∀ st : RState, RInv st → RInv (names.foldl (stepCol f1 f2) st) := by
  induction names with
  | nil => intro st h; exact h
  | cons nm rest ih =>
    intro st h
    exact ih _ (rinv_stepCol f1 f2 st nm h)

lemma rinv_stepPair (st : RState) (p : FileInfo × FileInfo) (h : RInv st) :
    RInv (stepPair st p) :=
  rinv_foldCols p.1 p.2 _ st h

lemma rinv_foldPairs (ps : List (FileInfo × FileInfo)) :
    ∀ st : RState, RInv st → RInv (ps.foldl stepPair st) := by
  induction ps with
  | nil => intro st h; exact h
  | cons p rest ih =>
    intro st h
    exact ih _ (rinv_stepPair st p h)

lemma seen_mono_stepCol (f1 f2 : FileInfo) (st : RState) (nm : String) :
    st.seen ⊆ (stepCol f1 f2 st nm).seen := by
  unfold stepCol
  rcases lookupCol f1 nm with _ | c1
  · exact fun a h => h
  rcases lookupCol f2 nm with _ | c2
  · exact fun a h => h
  show st.seen ⊆ (stepColGo f1 f2 st nm c1 c2).seen
  unfold stepColGo
  by_cases hd : c1.dtype ≠ c2.dtype
  · rw [if_pos hd]; exact fun a h => h
  rw [if_neg hd]
  by_cases hk : ¬ isKeyLikeName (lowerStr nm) = true
  · rw [if_pos hk]; exact fun a h => h
  rw [if_neg hk]
  by_cases hseen : pairKeyOf f1.csv_file_id f2.csv_file_id nm ∈ st.seen
  · rw [if_pos hseen]; exact fun a h => h
  · rw [if_neg hseen]
    intro a ha
    simp only [List.mem_append]
    exact Or.inl ha

lemma seen_mono_foldCols (f1 f2 : FileInfo) (names : List String) :
    ∀ st : RState, st.seen ⊆ ((names.foldl (stepCol f1 f2) st)).seen := by
  induction names with
  | nil => intro st; exact fun a h => h
  | cons nm rest ih =>
    intro st
    exact fun a ha => ih (stepCol f1 f2 st nm) (seen_mono_stepCol f1 f2 st nm ha)

lemma seen_mono_foldPairs (ps : List (FileInfo × FileInfo)) :
    ∀ st : RState, st.seen ⊆ (ps.foldl stepPair st).seen := by
  induction ps with
  | nil => intro st; exact fun a h => h
  | cons p rest ih =>
    intro st
    exact fun a ha => ih (stepPair st p) (seen_mono_foldCols p.1 p.2 _ st ha)

lemma hit_stepCol (f1 f2 : FileInfo) (st : RState) (nm : String)
    {c1 c2 : ColInfo}
    (h1 : lookupCol f1 nm = some c1) (h2 : lookupCol f2 nm = some c2)
    (hd : c1.dtype = c2.dtype) (hk : isKeyLikeName (lowerStr nm) = true) :
    pairKeyOf f1.csv_file_id f2.csv_file_id nm ∈ (stepCol f1 f2 st nm).seen := by
  unfold stepCol
  rw [h1, h2]
  show pairKeyOf f1.csv_file_id f2.csv_file_id nm ∈ (stepColGo f1 f2 st nm c1 c2).seen
  unfold stepColGo
  rw [if_neg (by simp [hd]), if_neg (by simp [hk])]
  by_cases hseen : pairKeyOf f1.csv_file_id f2.csv_file_id nm ∈ st.seen
  · rw [if_pos hseen]; exact hseen
  · rw [if_neg hseen]
    simp [List.mem_append]

lemma hit_foldCols (f1 f2 : FileInfo) (names : List String) (nm : String)
    {c1 c2 : ColInfo}
    (h1 : lookupCol f1 nm = some c1) (h2 : lookupCol f2 nm = some c2)
    (hd : c1.dtype = c2.dtype) (hk : isKeyLikeName (lowerStr nm) = true)
    (hmem : nm ∈ names) :
    ∀ st : RState, pairKeyOf f1.csv_file_id f2.csv_file_id nm ∈
      ((names.foldl (stepCol f1 f2) st)).seen := by
  induction names with
  | nil => cases hmem
  | cons x rest ih =>
    intro st
    rcases List.mem_cons.mp hmem with rfl | hm
    · exact seen_mono_foldCols f1 f2 rest _ (hit_stepCol f1 f2 st nm h1 h2 hd hk)
    · exact ih hm (stepCol f1 f2 st x)

lemma mem_firstOccs {α : Type} [DecidableEq α] (l : List α) (a : α) :
    a ∈ firstOccs l ↔ a ∈ l := by
  have key : ∀ (l acc : List α),
      (a ∈ List.foldl (fun acc v => if v ∈ acc then acc else acc ++ [v]) acc l) ↔
        (a ∈ acc ∨ a ∈ l) := by
    intro l
    induction l with
    | nil => intro acc; simp
    | cons x rest ih =>
      intro acc
      simp only [List.foldl_cons]
      by_cases hmem : x ∈ acc
      · rw [if_pos hmem, ih]
        constructor
        · rintro (h | h)
          · exact Or.inl h
          · exact Or.inr (List.mem_cons_of_mem _ h)
        · rintro (h | h)
          · exact Or.inl h
          · rcases List.mem_cons.mp h with rfl | h
            · exact Or.inl hmem
            · exact Or.inr h
      · rw [if_neg hmem, ih]
        simp only [List.mem_append, List.mem_singleton, List.mem_cons]
        tauto
  rw [firstOccs, key l []]
  simp

lemma mem_commonNames (f1 f2 : FileInfo) (nm : String)
    {c1 c2 : ColInfo}
    (h1 : lookupCol f1 nm = some c1) (h2 : lookupCol f2 nm = some c2) :
    nm ∈ commonNames f1 f2 := by
  have hm1 : nm ∈ f1.columns.map (fun c => c.name) := by
    have := List.find?_some h1
    have hmem := List.mem_reverse.mp (List.mem_of_find?_eq_some h1)
    have heq : c1.name = nm := by simpa using this
    exact List.mem_map.mpr ⟨c1, hmem, heq⟩
  have hm2 : f2.columns.any (fun c => c.name == nm) = true := by
    have hmem := List.mem_reverse.mp (List.mem_of_find?_eq_some h2)
    have := List.find?_some h2
    exact List.any_eq_true.mpr ⟨c2, hmem, this⟩
  exact List.mem_filter.mpr ⟨(mem_firstOccs _ _).mpr hm1, hm2⟩

lemma pair_mem_pairsOf (A B C : List FileInfo) (f g : FileInfo) :
    (f, g) ∈ pairsOf (A ++ f :: B ++ g :: C) := by
  induction A with
  | nil =>
    simp only [List.nil_append, pairsOf, List.mem_append]
    exact Or.inl (List.mem_map.mpr ⟨g, by simp, rfl⟩)
  | cons a A ih =>
    simp only [List.cons_append, pairsOf, List.mem_append]
    exact Or.inr ih

/-- Two concrete files sharing the key column customer_id. -/
def fiA : FileInfo :=
  ⟨"csvA", "a.csv", [⟨"customer_id", "numeric", 3⟩, ⟨"name", "categorical", 3⟩]⟩

def fiB : FileInfo :=
  ⟨"csvB", "b.csv", [⟨"customer_id", "numeric", 3⟩, ⟨"amount", "numeric", 3⟩]⟩

/-- C8: relationship detection is symmetric and deduplicated.  For any
files_info list containing two tables (in either order, any other tables
around them) that share a column name whose classified kinds agree and whose
lower-cased name is key-like, auto_detect_relationships proposes exactly one
relationship connecting that unordered (table, column) pair: the seen-set
makes the count at most one globally, and the pair scan makes it at least
one, independently of iteration order. -/
theorem auto_detect_dedup (A B C : List FileInfo) (f g : FileInfo) (nm : String)
    (c1 c2 : ColInfo)
    (h1 : lookupCol f nm = some c1) (h2 : lookupCol g nm = some c2)
    (hd : c1.dtype = c2.dtype) (hk : isKeyLikeName (lowerStr nm) = true) :
    countKey (auto_detect_relationships (A ++ f :: B ++ g :: C))
      (pairKeyOf f.csv_file_id g.csv_file_id nm) = 1 := by
  have hinv0 : RInv ⟨[], []⟩ := by
    intro k
    simp [countKey]
  have hinv : RInv ((pairsOf (A ++ f :: B ++ g :: C)).foldl stepPair ⟨[], []⟩) :=
    rinv_foldPairs _ _ hinv0
  have hpm : (f, g) ∈ pairsOf (A ++ f :: B ++ g :: C) := pair_mem_pairsOf A B C f g
  obtain ⟨l1, l2, hsplit⟩ := List.append_of_mem hpm
  have hseen : pairKeyOf f.csv_file_id g.csv_file_id nm ∈
      ((pairsOf (A ++ f :: B ++ g :: C)).foldl stepPair ⟨[], []⟩).seen := by
    rw [hsplit, List.foldl_append, List.foldl_cons]
    refine seen_mono_foldPairs l2 _ ?_
    exact hit_foldCols f g (commonNames f g) nm h1 h2 hd hk
      (mem_commonNames f g nm h1 h2) _
  have hcount : countKey ((pairsOf (A ++ f :: B ++ g :: C)).foldl stepPair ⟨[], []⟩).rels
      (pairKeyOf f.csv_file_id g.csv_file_id nm) = 1 := by
    rw [hinv _, if_pos hseen]
  unfold auto_detect_relationships countKey
  have hperm := List.perm_insertionSort
    (fun a b : Relationship => b.confidence ≤ a.confidence)
    ((pairsOf (A ++ f :: B ++ g :: C)).foldl stepPair ⟨[], []⟩).rels
  rw [(hperm.filter _).length_eq]
  exact hcount

/-- C8 (witness): exactly one relationship is proposed for the customer_id
pair of the two concrete files. -/
theorem auto_detect_dedup_witness :
    countKey (auto_detect_relationships [fiA, fiB])
      (pairKeyOf "csvA" "csvB" "customer_id") = 1 :=
  auto_detect_dedup [] [] [] fiA fiB "customer_id"
    ⟨"customer_id", "numeric", 3⟩ ⟨"customer_id", "numeric", 3⟩
    (by decide) (by decide) rfl (by decide)

/- ── data_merger merge engine ──────────────────────────────────── -/

def VALID_JOIN_TYPES : List String := ["inner", "left", "right", "outer"]

def colNames (df : DF) : List String := df.cols.map (fun c => c.name)

def getColVals (df : DF) (nm : String) : List Val :=
  match df.cols.find? (fun c => c.name == nm) with
  | some c => c.vals
  | none => []

/-- df.rename(columns=mapping). -/
def applyMapping (df : DF) (m : List (String × String)) : DF :=
  { df with cols := df.cols.map (fun c =>
      match m.find? (fun p => p.1 == c.name) with
      | some p => { c with name := p.2 }
      | none => c) }

/-- Merge log entry (the detail strings of the source are presentation only
and omitted; the action tag is kept verbatim). -/
structure MLog where
  action : String
deriving DecidableEq, Repr

/-- A raised merge error.  joinsDone instruments how many pairwise joins had
already been executed when the exception was raised (the Python exception
carries only the message; the counter makes the abort point provable). -/
structure MergeError where
  joinsDone : Nat
  msg : String
deriving DecidableEq, Repr

/-- One relationship dict of merge_by_relationships. -/
structure MergeRel where
  from_csv : String
  from_column : String
  to_csv : String
  to_column : String
deriving DecidableEq, Repr

/-- The key vector of row i of a frame over the given key columns. -/
def keyAt (df : DF) (keys : List String) (i : Nat) : List Val :=
  keys.map (fun k => (getColVals df k).getD i Val.na)

/-- Two key vectors join when equal and free of missing values (pandas NaN
keys never match). -/
def rowMatch (lk rk : List Val) : Bool :=
  lk == rk && lk.all (fun v => !v.isNa)

/-- Index pairs of an inner join, left row order then right row order. -/
def innerPairs (left right : DF) (lkeys rkeys : List String) :
    List (Option Nat × Option Nat) :=
  (List.range left.nrows).flatMap (fun i =>
    (List.range right.nrows).filterMap (fun j =>
      if rowMatch (keyAt left lkeys i) (keyAt right rkeys j) then some (some i, some j)
      else none))

def leftPairs (left right : DF) (lkeys rkeys : List String) :
    List (Option Nat × Option Nat) :=
  (List.range left.nrows).flatMap (fun i =>
    let ms := (List.range right.nrows).filterMap (fun j =>
      if rowMatch (keyAt left lkeys i) (keyAt right rkeys j) then
        some ((some i : Option Nat), (some j : Option Nat))
      else none)
    if ms.isEmpty then [(some i, none)] else ms)

def rightPairs (left right : DF) (lkeys rkeys : List String) :
    List (Option Nat × Option Nat) :=
  (List.range right.nrows).flatMap (fun j =>
    let ms := (List.range left.nrows).filterMap (fun i =>
      if rowMatch (keyAt left lkeys i) (keyAt right rkeys j) then
        some ((some i : Option Nat), (some j : Option Nat))
      else none)
    if ms.isEmpty then [(none, some j)] else ms)

def outerPairs (left right : DF) (lkeys rkeys : List String) :
    List (Option Nat × Option Nat) :=
  leftPairs left right lkeys rkeys ++
    (List.range right.nrows).filterMap (fun j =>
      if ((List.range left.nrows).filterMap (fun i =>
          if rowMatch (keyAt left lkeys i) (keyAt right rkeys j) then some i
          else none)).isEmpty
      then some (none, some j) else none)

/-- pandas row pairing for the four join types (row ordering of non-inner
joins modelled plausibly; no claim inspects it). -/
def pairsFor (how : String) (left right : DF) (lkeys rkeys : List String) :
    List (Option Nat × Option Nat) :=
  if how == "left" then leftPairs left right lkeys rkeys
  else if how == "right" then rightPairs left right lkeys rkeys
  else if how == "outer" then outerPairs left right lkeys rkeys
  else innerPairs left right lkeys rkeys

/-- The pandas suffix rule with suffixes ("", s): a right column whose name
collides with a left column name gets the suffix; left columns are never
renamed. -/
def suffixRename (leftNames : List String) (suffix : String) (c : ColumnD) : ColumnD :=
  if c.name ∈ leftNames then { c with name := c.name ++ suffix } else c

def pickVals (vals : List Val) (idx : Option Nat) : Val :=
  match idx with
  | some i => vals.getD i Val.na
  | none => Val.na

def buildJoined (left : DF) (rightCols : List ColumnD)
    (pairs : List (Option Nat × Option Nat)) : DF :=
  { nrows := pairs.length,
    cols := left.cols.map (fun c => { c with vals := pairs.map (fun p => pickVals c.vals p.1) })
      ++ rightCols.map (fun c => { c with vals := pairs.map (fun p => pickVals c.vals p.2) }) }

/-- left.merge(right, on=keys, how=how, suffixes=("", suffix)): the right key
columns are dropped (the key appears once, from the left), remaining right
columns are suffix-renamed on collision. -/
def joinOnKeys (left right : DF) (keys : List String) (how : String) (suffix : String) : DF :=
  let rcols := (right.cols.filter (fun c => decide (c.name ∉ keys))).map
    (suffixRename (colNames left) suffix)
  buildJoined left rcols (pairsFor how left right keys keys)

/-- The join of merge_by_relationships: on=col when the two column names
agree (right key dropped), left_on/right_on otherwise (both kept). -/
def joinOnCols (left right : DF) (lcol rcol : String) (how : String) (suffix : String) : DF :=
  if lcol == rcol then joinOnKeys left right [lcol] how suffix
  else
    buildJoined left (right.cols.map (suffixRename (colNames left) suffix))
      (pairsFor how left right [lcol] [rcol])

/-- result.merge(other, how="cross"): the cartesian product; duplicate column
names get the default _x/_y suffixes. -/
def crossJoin (left right : DF) : DF :=
  let lnames := colNames left
  let rnames := colNames right
  { nrows := left.nrows * right.nrows,
    cols := left.cols.map (fun c =>
        { c with name := if c.name ∈ rnames then c.name ++ "_x" else c.name,
                 vals := c.vals.flatMap (fun v => List.replicate right.nrows v) })
      ++ right.cols.map (fun c =>
        { c with name := if c.name ∈ lnames then c.name ++ "_y" else c.name,
                 vals := (List.replicate left.nrows c.vals).flatten }) }

/-- data_merger.merge_dataframes (flat mode): validate the join type, the
frame list, then (after column mappings) all merge keys up front, and only
then run the sequential joins, which raise nothing.  Every error is
constructed before the first join, with joinsDone = 0. -/
def merge_dataframes (dfs : List DF) (merge_keys : List String) (how : String)
    (column_mappings : List (List (String × String))) :
    Except MergeError (DF × List MLog) :=
  if ¬ how ∈ VALID_JOIN_TYPES then .error ⟨0, "Invalid join type"⟩
  else
    match dfs with
    | [] => .error ⟨0, "No DataFrames to merge"⟩
    | [d] => .ok (d, [⟨"skip"⟩])
    | _ =>
      let mapped := dfs.enum.map (fun p => applyMapping p.2 (column_mappings.getD p.1 []))
      let mapLogs : List MLog := dfs.enum.filterMap (fun p =>
        if column_mappings.getD p.1 [] ≠ [] then some ⟨"column_mapping"⟩ else none)
      if mapped.any (fun d => merge_keys.any (fun k => decide (k ∉ colNames d))) then
        .error ⟨0, "Merge keys not found"⟩
      else
        match mapped with
        | [] => .error ⟨0, "No DataFrames to merge"⟩
        | d0 :: rest =>
          let step := fun (acc : DF × List MLog × Nat) (d : DF) =>
            (joinOnKeys acc.1 d merge_keys how ("_" ++ toString (acc.2.2 + 2)),
             acc.2.1 ++ [(⟨"merge"⟩ : MLog)], acc.2.2 + 1)
          let fin := rest.foldl step (d0, [], 0)
          .ok (fin.1, mapLogs ++ fin.2.1 ++ [⟨"summary"⟩])

/-- dfs_map as an insertion-ordered association list (Python dict). -/
def lookupDF (m : List (String × DF)) (k : String) : Option DF :=
  match m.find? (fun p => p.1 == k) with
  | some p => some p.2
  | none => none

/-- The mutable state of the merge_by_relationships while loop.  joins
counts executed pairwise joins (instrumentation, see MergeError). -/
structure MState where
  result : DF
  mids : List String
  remaining : List MergeRel
  log : List MLog
  joins : Nat
deriving DecidableEq, Repr

/-- The join body once an edge straddling the merged/unmerged boundary is
selected: validate the two columns (raising with the current join count on
failure), execute the join, mark the table merged, drop the edge. -/
def joinStep (how : String) (st : MState) (leftCol rightCol joiningId : String)
    (rdf : DF) (newRem : List MergeRel) : Except MergeError (MState × Bool) :=
  if ¬ leftCol ∈ colNames st.result then
    .error ⟨st.joins, "Column not found in merged result"⟩
  else if ¬ rightCol ∈ colNames rdf then
    .error ⟨st.joins, "Column not found in joining CSV"⟩
  else
    .ok ({ result := joinOnCols st.result rdf leftCol rightCol how
             ("_" ++ String.mk (joiningId.toList.take 8)),
           mids := st.mids ++ [joiningId], remaining := newRem,
           log := st.log ++ [⟨"merge"⟩], joins := st.joins + 1 }, true)

/-- One pass of the for loop over list(remaining): edges whose endpoints are
both merged are removed as encountered; the first straddling edge is joined
and the pass stops (break); edges with neither endpoint merged are kept.  The
first argument accumulates the kept prefix; the returned Bool is merged_any. -/
def scanRels (mapped : List (String × DF)) (how : String) (st : MState) :
    List MergeRel → List MergeRel → Except MergeError (MState × Bool)
  | kept, [] => .ok ({ st with remaining := kept }, false)
  | kept, rel :: rest =>
    if rel.from_csv ∈ st.mids ∧ ¬ rel.to_csv ∈ st.mids then
      match lookupDF mapped rel.to_csv with
      | none => .error ⟨st.joins, "KeyError"⟩
      | some rdf => joinStep how st rel.from_column rel.to_column rel.to_csv rdf (kept ++ rest)
    else if rel.to_csv ∈ st.mids ∧ ¬ rel.from_csv ∈ st.mids then
      match lookupDF mapped rel.from_csv with
      | none => .error ⟨st.joins, "KeyError"⟩
      | some rdf => joinStep how st rel.to_column rel.from_column rel.from_csv rdf (kept ++ rest)
    else if rel.from_csv ∈ st.mids ∧ rel.to_csv ∈ st.mids then
      scanRels mapped how st kept rest
    else
      scanRels mapped how st (kept ++ [rel]) rest

/-- The stalled-pass fallback: look at the first remaining edge only (the
outer for loop breaks unconditionally after it); cross-join its first
unmerged endpoint that is present in the frame map, logging a warning.  If
neither endpoint qualifies, nothing happens and the loop spins. -/
def fallbackStep (mapped : List (String × DF)) (st : MState) : MState :=
  match st.remaining with
  | [] => st
  | rel :: _ =>
    match (if rel.from_csv ∈ st.mids then none else lookupDF mapped rel.from_csv) with
    | some d =>
      { st with
          result := crossJoin st.result d
          mids := st.mids ++ [rel.from_csv]
          log := st.log ++ [⟨"warning"⟩] }
    | none =>
      match (if rel.to_csv ∈ st.mids then none else lookupDF mapped rel.to_csv) with
      | some d =>
        { st with
            result := crossJoin st.result d
            mids := st.mids ++ [rel.to_csv]
            log := st.log ++ [⟨"warning"⟩] }
      | none => st

/-- One iteration of the while body: scan, and on a no-progress pass with
edges remaining, run the cross-join fallback. -/
def whileBody (mapped : List (String × DF)) (how : String) (st : MState) :
    Except MergeError MState :=
  match scanRels mapped how st [] st.remaining with
  | .error e => .error e
  | .ok (st2, didJoin) =>
    if didJoin then .ok st2
    else if st2.remaining ≠ [] then .ok (fallbackStep mapped st2)
    else .ok st2

/-- The while loop, fuel = max_iter = 2 * len(relationships) + 5.  Running
out of fuel exits the loop normally with the current state. -/
def mergeLoop (mapped : List (String × DF)) (how : String) :
    Nat → MState → Except MergeError MState
  | 0, st => .ok st
  | Nat.succ fuel, st =>
    if st.remaining = [] then .ok st
    else
      match whileBody mapped how st with
      | .error e => .error e
      | .ok st2 => mergeLoop mapped how fuel st2

/-- data_merger.merge_by_relationships up to (not including) the final
summary log entry: validations, column mappings, the seed from the first
edge's source table, and the bounded while loop. -/
def merge_by_relationships_core (dfs_map : List (String × DF))
    (relationships : List MergeRel) (how : String)
    (column_mappings : List (String × List (String × String))) :
    Except MergeError MState :=
  match relationships with
  | [] => .error ⟨0, "No relationships defined"⟩
  | r0 :: _ =>
    if ¬ how ∈ VALID_JOIN_TYPES then .error ⟨0, "Invalid join type"⟩
    else
      let mapped := dfs_map.map (fun p =>
        (p.1, applyMapping p.2
          (((column_mappings.find? (fun q => q.1 == p.1)).map (fun q => q.2)).getD [])))
      let mapLogs : List MLog := dfs_map.filterMap (fun p =>
        if (((column_mappings.find? (fun q => q.1 == p.1)).map (fun q => q.2)).getD []) ≠ []
        then some ⟨"column_mapping"⟩ else none)
      match lookupDF mapped r0.from_csv with
      | none => .error ⟨0, "KeyError start"⟩
      | some startDF =>
        mergeLoop mapped how (2 * relationships.length + 5)
          { result := startDF, mids := [r0.from_csv], remaining := relationships,
            log := mapLogs ++ [⟨"start"⟩], joins := 0 }

/-- data_merger.merge_by_relationships: the loop result plus the final
summary log entry. -/
def merge_by_relationships (dfs_map : List (String × DF))
    (relationships : List MergeRel) (how : String)
    (column_mappings : List (String × List (String × String))) :
    Except MergeError (DF × List MLog) :=
  match merge_by_relationships_core dfs_map relationships how column_mappings with
  | .error e => .error e
  | .ok st => .ok (st.result, st.log ++ [⟨"summary"⟩])

/-- C2 (amended, flat mode): merge_dataframes validates the join type, the
frame list and every merge key up front; every raised error leaves with zero
joins executed (and, the return type being an exception, no partial merged
result is produced in either mode). -/
theorem merge_dataframes_validates_before_joins (dfs : List DF)
    (merge_keys : List String) (how : String)
    (column_mappings : List (List (String × String))) (e : MergeError)
    (h : merge_dataframes dfs merge_keys how column_mappings = .error e) :
    e.joinsDone = 0 := by
  unfold merge_dataframes at h
  split at h
  · cases h
    rfl
  · split at h
    · cases h
      rfl
    · cases h
    · simp only [] at h
      split at h
      · cases h
        rfl
      · split at h
        · cases h
          rfl
        · cases h

instance instDecEqExcept {e a : Type} [DecidableEq e] [DecidableEq a] :
    DecidableEq (Except e a) := fun x y =>
  match x, y with
  | .error u, .error v =>
    if h : u = v then .isTrue (by rw [h]) else .isFalse (fun hc => h (by injection hc))
  | .ok u, .ok v =>
    if h : u = v then .isTrue (by rw [h]) else .isFalse (fun hc => h (by injection hc))
  | .error _, .ok _ => .isFalse (fun hc => Except.noConfusion hc)
  | .ok _, .error _ => .isFalse (fun hc => Except.noConfusion hc)

/-- One-row one-column frames for the merge counterexamples. -/
def dmA : DF := ⟨1, [⟨"k", DKind.numK, [Val.num 1]⟩]⟩

def dmB : DF := ⟨1, [⟨"k", DKind.numK, [Val.num 1]⟩]⟩

def dmC : DF := ⟨1, [⟨"k", DKind.numK, [Val.num 1]⟩]⟩

def dfM2 : DF := ⟨1, [⟨"q", DKind.numK, [Val.num 1]⟩]⟩

def exMapC2 : List (String × DF) := [("A", dmA), ("B", dmB), ("C", dmC)]

def exRelsC2 : List MergeRel := [⟨"A", "k", "B", "k"⟩, ⟨"B", "zz", "C", "k"⟩]

/-- C2 (counterexample): merge_by_relationships does execute a join before
raising for a later edge.  With edges A-B on k (valid) and then B-C on a
column zz absent from the merged result, the A-B join runs first and the
missing-column error is raised afterwards, with one join already executed. -/
theorem merge_by_relationships_raises_after_join :
    merge_by_relationships exMapC2 exRelsC2 "inner" [] =
      .error ⟨1, "Column not found in merged result"⟩ := by
  decide

/-- C2 (witness): the flat-mode theorem applied to a concrete missing-key
input. -/
theorem merge_dataframes_validates_witness :
    merge_dataframes [dmA, dfM2] ["k"] "inner" [] =
      .error ⟨0, "Merge keys not found"⟩ ∧
    (⟨0, "Merge keys not found"⟩ : MergeError).joinsDone = 0 :=
  ⟨by decide,
   merge_dataframes_validates_before_joins [dmA, dfM2] ["k"] "inner" [] _ (by decide)⟩

lemma scanRels_no_straddle (mapped : List (String × DF)) (how : String) (st : MState)
    (rem : List MergeRel)
    (hall : ∀ r ∈ rem, ¬ r.from_csv ∈ st.mids ∧ ¬ r.to_csv ∈ st.mids) :
    ∀ kept, scanRels mapped how st kept rem =
      .ok ({ st with remaining := kept ++ rem }, false) := by
  induction rem with
  | nil =>
    intro kept
    rw [scanRels, List.append_nil]
  | cons rel rest ih =>
    intro kept
    obtain ⟨hf, ht⟩ := hall rel (List.mem_cons_self rel rest)
    rw [scanRels, if_neg (fun hc => hf hc.1), if_neg (fun hc => ht hc.1),
      if_neg (fun hc => hf hc.1),
      ih (fun r hr => hall r (List.mem_cons_of_mem _ hr)) (kept ++ [rel]),
      List.append_assoc]
    rfl

/-- C6: in relationship mode, when a pass makes no progress because every
remaining edge has both endpoints outside the merged set (the unmerged
tables are connected to the merged set by no remaining edge), the first
remaining edge's unmerged source table (when present in the frame map) is
incorporated by a cross join, a warning log entry is appended, and the
resulting row count is the product of the accumulated row count and that
table's row count. -/
theorem cross_join_fallback (mapped : List (String × DF)) (how : String)
    (st : MState) (rel : MergeRel) (rest : List MergeRel) (d : DF)
    (hrem : st.remaining = rel :: rest)
    (hall : ∀ r ∈ st.remaining, ¬ r.from_csv ∈ st.mids ∧ ¬ r.to_csv ∈ st.mids)
    (hd : lookupDF mapped rel.from_csv = some d) :
    whileBody mapped how st = .ok { st with
        result := crossJoin st.result d
        mids := st.mids ++ [rel.from_csv]
        log := st.log ++ [⟨"warning"⟩] } ∧
    (crossJoin st.result d).nrows = st.result.nrows * d.nrows := by
  have hscan := scanRels_no_straddle mapped how st st.remaining hall []
  rw [List.nil_append] at hscan
  have hst2 : ({ st with remaining := st.remaining } : MState) = st := rfl
  rw [hst2] at hscan
  constructor
  · unfold whileBody
    rw [hscan]
    have hne : (st.remaining ≠ []) = True := by
      simp [hrem]
    simp only [Bool.false_eq_true, if_false, hne, if_true]
    unfold fallbackStep
    rw [hrem]
    obtain ⟨hf, _⟩ := hall rel (hrem ▸ List.mem_cons_self rel rest)
    simp only [if_neg hf, hd]
  · rfl

/-- Concrete stalled state: result has one row, the only remaining edge
references tables X and Y, X is present in the frame map with two rows. -/
def dfRes6 : DF := ⟨1, [⟨"a", DKind.numK, [Val.num 1]⟩]⟩

def dfX6 : DF := ⟨2, [⟨"x", DKind.numK, [Val.num 1, Val.num 2]⟩]⟩

def st6 : MState :=
  ⟨dfRes6, ["A"], [⟨"X", "k", "Y", "k"⟩], [⟨"start"⟩], 0⟩

/-- C6 (witness): the fallback theorem applied to the concrete stalled state;
the cross join multiplies 1 row by 2 rows. -/
theorem cross_join_fallback_witness :
    whileBody [("X", dfX6)] "inner" st6 = .ok { st6 with
        result := crossJoin st6.result dfX6
        mids := ["A", "X"]
        log := [⟨"start"⟩, ⟨"warning"⟩] } ∧
    (crossJoin st6.result dfX6).nrows = 2 :=
  ⟨(cross_join_fallback [("X", dfX6)] "inner" st6 ⟨"X", "k", "Y", "k"⟩ [] dfX6
      rfl (by decide) (by decide)).1,
   by decide⟩

def exMap9 : List (String × DF) := [("A", dmA), ("B", dmB)]

def exRels9 : List MergeRel := [⟨"A", "k", "B", "k"⟩, ⟨"X", "k", "Y", "k"⟩]

/-- C9: exhausting the iteration bound raises nothing.  In general, running
out of fuel returns the current state as a normal result; concretely, with a
second edge whose tables are absent from the frame map, the loop joins A-B,
then stalls for the remaining iterations (the fallback finds no table to
cross-join), and merge_by_relationships returns the partially merged table
with the ordinary log ending in the single summary entry, the unresolved
edge silently ignored. -/
theorem merge_loop_exhaustion_returns :
    (∀ (mapped : List (String × DF)) (how : String) (st : MState),
      mergeLoop mapped how 0 st = .ok st) ∧
    (merge_by_relationships_core exMap9 exRels9 "inner" []).toOption.map
        (fun st => (st.remaining.length, st.log.map (fun l => l.action))) =
      some (1, ["start", "merge"]) ∧
    (merge_by_relationships exMap9 exRels9 "inner" []).toOption.map
        (fun p => p.2.map (fun l => l.action)) =
      some ["start", "merge", "summary"] := by
  refine ⟨fun mapped how st => rfl, ?_, ?_⟩
  · decide
  · decide

/-- C9 (witness): the fuel-exhaustion clause applied at a concrete state. -/
theorem merge_loop_exhaustion_returns_witness :
    mergeLoop [] "inner" 0 st6 = .ok st6 :=
  merge_loop_exhaustion_returns.1 [] "inner" st6

/- ── data_cleaner.clean_dataframe ──────────────────────────────── -/

/-- Cleaning log entry (detail strings are presentation only and omitted). -/
structure CLog where
  action : String
  column : Option String
deriving DecidableEq, Repr

/-- The cleaner configuration.  outlierIqr models outlier_method = "iqr"
(true, the default) versus None; normalizeMinmax models normalize = "minmax"
versus None (the default); dateFormat models whether a date_format string was
given.  The zscore variants of outlier handling and normalization rescale by
a standard deviation, a real square root outside this exact rational
embedding, and no claim exercises them. -/
structure CleanConfig where
  numericStrategy : String
  categoricalFill : String
  dedupSubset : Option (List String)
  outlierIqr : Bool
  normalizeMinmax : Bool
  dateFormat : Bool
deriving Repr

/-- The module defaults of data_cleaner. -/
def defaultConfig : CleanConfig := ⟨"median", "Unknown", none, true, false, false⟩

/-- df[nm]: the first column of that name. -/
def findCol : List ColumnD → String → Option ColumnD
  | [], _ => none
  | c :: rest, nm => if c.name = nm then some c else findCol rest nm

def getCol (df : DF) (nm : String) : Option ColumnD := findCol df.cols nm

/-- df[nm] = vs: replace dtype and values of every column of that name. -/
def setColVals (df : DF) (nm : String) (k : DKind) (vs : List Val) : DF :=
  { df with cols := df.cols.map (fun c =>
      if c.name = nm then { c with dtype := k, vals := vs } else c) }

/-- Drop the rows whose mask entry is false, across every column. -/
def maskVals (mask : List Bool) (vs : List Val) : List Val :=
  (vs.zip mask).filterMap (fun p => if p.2 then some p.1 else none)

def keepRows (df : DF) (mask : List Bool) : DF :=
  { nrows := (mask.filter (fun b => b)).length,
    cols := df.cols.map (fun c => { c with vals := maskVals mask c.vals }) }

/-- Linear interpolation at a fractional position of a sorted list (the
pandas default quantile interpolation). -/
def interp (s : List Rat) (pos : Rat) : Rat :=
  let i := (⌊pos⌋).toNat
  let lo := s.getD i 0
  let hi := s.getD (i + 1) lo
  lo + (pos - (i : Rat)) * (hi - lo)

/-- series.quantile(p) with linear interpolation over the sorted non-missing
values; 0 on an empty list (pandas yields NaN there; every use below skips
that case, see the call sites). -/
def quantileR (xs : List Rat) (p : Rat) : Rat :=
  let s := xs.insertionSort (fun a b => a ≤ b)
  if s.isEmpty then 0 else interp s (p * ((s.length : Rat) - 1))

/-- str.title over characters: an alphabetic character is upper-cased after a
non-alphabetic position and lower-cased otherwise. -/
def titleChars : List Char → Bool → List Char
  | [], _ => []
  | c :: rest, prevAlpha =>
    (if c.isAlpha then (if prevAlpha then c.toLower else c.toUpper) else c) ::
      titleChars rest c.isAlpha

def titleCase (s : String) : String := String.mk (titleChars s.toList false)

/-- Step 1 of clean_dataframe: working column sets plus in-place datetime
conversion.  numeric_cols is select_dtypes(number); non-numeric columns with
string dtype whose non-missing values all parse as datetimes (the 0.6
threshold is then automatic, as in classify_columns) are converted with
errors=coerce and logged; everything else, already-datetime columns
included, lands in cat_cols. -/
structure ClassifyOut where
  df : DF
  numeric : List String
  cats : List String
  dates : List String
  log : List CLog

def cleanClassify (df0 : DF) : ClassifyOut :=
  df0.cols.foldl (fun acc c =>
    if c.dtype == DKind.numK then acc
    else
      let s := dropNa c.vals
      if s.isEmpty then { acc with cats := acc.cats ++ [c.name] }
      else if c.dtype == DKind.strK then
        match parseAll (valStrs s) with
        | some _ =>
          { acc with
              df := setColVals acc.df c.name DKind.dtK (matVals c.vals)
              dates := acc.dates ++ [c.name]
              log := acc.log ++ [⟨"parse_date", some c.name⟩] }
        | none => { acc with cats := acc.cats ++ [c.name] }
      else { acc with cats := acc.cats ++ [c.name] })
    ⟨df0, (df0.cols.filter (fun c => c.dtype == DKind.numK)).map (fun c => c.name), [], [], []⟩

/-- Step 2, numeric missing values.  A strategy outside mean/median/drop is a
silent no-op, as in the source.  When every value is missing, the pandas
fill value mean/median is NaN and fillna(NaN) changes nothing, but the log
entry is still appended. -/
def imputeCol (strategy : String) (nm : String) (df : DF) : DF × List CLog :=
  match getCol df nm with
  | none => (df, [])
  | some c =>
    let miss := (c.vals.filter (fun v => v.isNa)).length
    if miss = 0 then (df, [])
    else if strategy == "mean" then
      let nums := valNums c.vals
      let newVals := if nums.isEmpty then c.vals
        else c.vals.map (fun v => if v.isNa then Val.num (ratMean nums) else v)
      (setColVals df nm c.dtype newVals, [⟨"impute_mean", some nm⟩])
    else if strategy == "median" then
      let nums := valNums c.vals
      let newVals := if nums.isEmpty then c.vals
        else c.vals.map (fun v => if v.isNa then Val.num (quantileR nums ((1 : Rat) / 2)) else v)
      (setColVals df nm c.dtype newVals, [⟨"impute_median", some nm⟩])
    else if strategy == "drop" then
      (keepRows df (c.vals.map (fun v => !v.isNa)), [⟨"drop_missing", some nm⟩])
    else (df, [])

/-- Step 2, categorical missing values (pandas upcasts a non-string column
to object on fill; the dtype tag is kept, and the pipeline only reaches this
with string columns from read frames). -/
def fillCatCol (fill : String) (nm : String) (df : DF) : DF × List CLog :=
  match getCol df nm with
  | none => (df, [])
  | some c =>
    let miss := (c.vals.filter (fun v => v.isNa)).length
    if miss = 0 then (df, [])
    else
      (setColVals df nm c.dtype (c.vals.map (fun v => if v.isNa then Val.str fill else v)),
       [⟨"fill_categorical", some nm⟩])

/-- Step 2, datetime columns: rows with missing (unparseable) dates are
dropped, not filled. -/
def dropDateCol (nm : String) (df : DF) : DF × List CLog :=
  match getCol df nm with
  | none => (df, [])
  | some c =>
    let miss := (c.vals.filter (fun v => v.isNa)).length
    if miss = 0 then (df, [])
    else (keepRows df (c.vals.map (fun v => !v.isNa)), [⟨"drop_missing_dates", some nm⟩])

/-- The columns a dedup subset restricts to (full row when none). -/
def sigCols (df : DF) (subset : Option (List String)) : List ColumnD :=
  match subset with
  | none => df.cols
  | some s => df.cols.filter (fun c => decide (c.name ∈ s))

def rowSig (cols : List ColumnD) (i : Nat) : List Val :=
  cols.map (fun c => c.vals.getD i Val.na)

/-- drop_duplicates keep=first: keep row i iff no earlier row has the same
signature. -/
def dedupMask (df : DF) (subset : Option (List String)) : List Bool :=
  (List.range df.nrows).map (fun i =>
    decide (∀ j, j < i → rowSig (sigCols df subset) j ≠ rowSig (sigCols df subset) i))

/-- Step 3: duplicate removal, logged only when rows were removed. -/
def dropDuplicatesStage (subset : Option (List String)) (df : DF) : DF × List CLog :=
  let df2 := keepRows df (dedupMask df subset)
  if df2.nrows < df.nrows then (df2, [⟨"remove_duplicates", none⟩]) else (df2, [])

/-- astype(str).str.strip().str.title() on one cell; astype(str) renders NaN
as the string nan, which title-cases to Nan. -/
def stdTransform (vs : List Val) : List Val :=
  vs.map (fun v => match v with
    | Val.str t => Val.str (titleCase (stripStr t))
    | Val.na => Val.str "Nan"
    | other => other)

/-- Step 4: categorical standardization.  The transform is applied
unconditionally to every string column of cat_cols; the log entry is
appended only when the distinct count strictly dropped, so value changes
that preserve the distinct count go unlogged. -/
def stdizeColGo (nm : String) (df : DF) (c : ColumnD) : DF × List CLog :=
  if c.dtype == DKind.strK then
    (setColVals df nm c.dtype (stdTransform c.vals),
     if nuniqueOf (dropNa (stdTransform c.vals)) < nuniqueOf (dropNa c.vals) then
       [⟨"standardise_categorical", some nm⟩]
     else [])
  else (df, [])

def stdizeCol (nm : String) (df : DF) : DF × List CLog :=
  match getCol df nm with
  | none => (df, [])
  | some c => stdizeColGo nm df c

/-- strftime output of an encoded date. -/
def fmtDate (d : Int) : String :=
  toString (d / 10000) ++ "-" ++ toString (d / 100 % 100) ++ "-" ++ toString (d % 100)

/-- Step 5: date reformatting, logged whenever a format is given (the
rendered column becomes a string column). -/
def formatDateCol (nm : String) (df : DF) : DF × List CLog :=
  match getCol df nm with
  | none => (df, [])
  | some c =>
    (setColVals df nm DKind.strK (c.vals.map (fun v => match v with
      | Val.dt d => Val.str (fmtDate d)
      | other => other)), [⟨"format_date", some nm⟩])

/-- The quantile bounds of the IQR stage for one column (computed from the
column's values at the start of its processing).  Step 6, IQR capping for a
numeric column: quantiles over the non-missing values, skip when IQR = 0,
clip (np.clip semantics) and log only when some value lies outside the
bounds.  An all-missing column has NaN quantiles in pandas, fails every
outlier comparison and is left untouched unlogged; here its quantiles are 0,
IQR = 0, and it is skipped, the same observable outcome. -/
def q1Of (c : ColumnD) : Rat := quantileR (valNums c.vals) ((1 : Rat) / 4)

def q3Of (c : ColumnD) : Rat := quantileR (valNums c.vals) ((3 : Rat) / 4)

def lowerOf (c : ColumnD) : Rat := q1Of c - (3 : Rat) / 2 * (q3Of c - q1Of c)

def upperOf (c : ColumnD) : Rat := q3Of c + (3 : Rat) / 2 * (q3Of c - q1Of c)

def capColGo (nm : String) (df : DF) (c : ColumnD) : DF × List CLog :=
  if q3Of c - q1Of c = 0 then (df, [])
  else
    if ((valNums c.vals).filter
        (fun x => decide (x < lowerOf c ∨ x > upperOf c))).length = 0 then (df, [])
    else
      (setColVals df nm c.dtype (c.vals.map (fun v => match v with
        | Val.num q => Val.num (min (max q (lowerOf c)) (upperOf c))
        | other => other)), [⟨"cap_outliers_iqr", some nm⟩])

def capCol (nm : String) (df : DF) : DF × List CLog :=
  match getCol df nm with
  | none => (df, [])
  | some c => capColGo nm df c

/-- Step 7, min-max normalization for one numeric column: skip when
max - min = 0, otherwise rescale and log, even when the rescale is the
identity.  On an all-missing column the pandas min and max are NaN, the
max - min == 0 test is False, the transform keeps every value NaN and the
entry is still logged; that is modelled by the isEmpty branch. -/
def minmaxColGo (nm : String) (df : DF) (c : ColumnD) : DF × List CLog :=
  if (valNums c.vals).isEmpty then (df, [⟨"normalize_minmax", some nm⟩])
  else
    if ratMaxD (valNums c.vals) - ratMinD (valNums c.vals) = 0 then (df, [])
    else
      (setColVals df nm c.dtype (c.vals.map (fun v => match v with
        | Val.num q => Val.num ((q - ratMinD (valNums c.vals)) /
            (ratMaxD (valNums c.vals) - ratMinD (valNums c.vals)))
        | other => other)), [⟨"normalize_minmax", some nm⟩])

def minmaxCol (nm : String) (df : DF) : DF × List CLog :=
  match getCol df nm with
  | none => (df, [])
  | some c => minmaxColGo nm df c

/-- Run a per-column stage over a list of column names, threading the frame
and concatenating the logs. -/
def runCols (step : String → DF → DF × List CLog) (cols : List String) (df : DF) :
    DF × List CLog :=
  cols.foldl (fun acc nm =>
    ((step nm acc.1).1, acc.2 ++ (step nm acc.1).2)) (df, [])

def stripNames (df : DF) : DF :=
  { df with cols := df.cols.map (fun c => { c with name := stripStr c.name }) }

/-- data_cleaner.clean_dataframe.  The source first takes df = df.copy(), so
the caller frame is never written; the pipeline below operates on that copy:
strip column names, classify, impute, fill, drop bad dates, dedup,
standardize categoricals, reformat dates, cap outliers, normalize, then the
unconditional summary entry. -/
def clean_dataframe (df0 : DF) (cfg : CleanConfig) : DF × List CLog :=
  let df1 := stripNames df0
  let co := cleanClassify df1
  let r2 := runCols (imputeCol cfg.numericStrategy) co.numeric co.df
  let r3 := runCols (fillCatCol cfg.categoricalFill) co.cats r2.1
  let r4 := runCols dropDateCol co.dates r3.1
  let r5 := dropDuplicatesStage cfg.dedupSubset r4.1
  let r6 := runCols stdizeCol co.cats r5.1
  let r7 := if cfg.dateFormat then runCols formatDateCol co.dates r6.1 else (r6.1, [])
  let r8 := if cfg.outlierIqr then runCols capCol co.numeric r7.1 else (r7.1, [])
  let r9 := if cfg.normalizeMinmax then runCols minmaxCol co.numeric r8.1 else (r8.1, [])
  (r9.1, co.log ++ r2.2 ++ r3.2 ++ r4.2 ++ r5.2 ++ r6.2 ++ r7.2 ++ r8.2 ++ r9.2 ++
    [⟨"summary", none⟩])

lemma sorted_getD_adj {s : List Rat} (hs : s.Sorted (· ≤ ·)) (i : Nat) :
    s.getD i 0 ≤ s.getD (i + 1) (s.getD i 0) := by
  by_cases h : i + 1 < s.length
  · have hi : i < s.length := Nat.lt_of_succ_lt h
    rw [List.getD_eq_getElem s 0 hi, List.getD_eq_getElem s _ h]
    exact List.Sorted.rel_get_of_le hs (by exact Nat.le_succ i)
  · rw [List.getD_eq_default s _ (Nat.le_of_not_lt h)]

lemma sorted_getD_mono {s : List Rat} (hs : s.Sorted (· ≤ ·)) {i j : Nat}
    (hij : i ≤ j) (hj : j < s.length) (d1 d2 : Rat) :
    s.getD i d1 ≤ s.getD j d2 := by
  have hi : i < s.length := lt_of_le_of_lt hij hj
  rw [List.getD_eq_getElem s d1 hi, List.getD_eq_getElem s d2 hj]
  exact List.Sorted.rel_get_of_le hs hij

lemma floorNat_cast_eq {pos : Rat} (hpos : 0 ≤ pos) :
    ((⌊pos⌋.toNat : Nat) : Rat) = ((⌊pos⌋ : Int) : Rat) := by
  exact_mod_cast Int.toNat_of_nonneg (Int.floor_nonneg.mpr hpos)

lemma floorNat_cast_le {pos : Rat} (hpos : 0 ≤ pos) :
    ((⌊pos⌋.toNat : Nat) : Rat) ≤ pos := by
  rw [floorNat_cast_eq hpos]
  exact Int.floor_le pos

lemma lt_floorNat_cast_add_one {pos : Rat} (hpos : 0 ≤ pos) :
    pos < ((⌊pos⌋.toNat : Nat) : Rat) + 1 := by
  rw [floorNat_cast_eq hpos]
  exact Int.lt_floor_add_one pos

lemma interp_ge_lo {s : List Rat} (hs : s.Sorted (· ≤ ·)) {pos : Rat} (hpos : 0 ≤ pos) :
    s.getD (⌊pos⌋.toNat) 0 ≤ interp s pos := by
  unfold interp
  dsimp only
  have hfr : 0 ≤ pos - ((⌊pos⌋.toNat : Nat) : Rat) :=
    sub_nonneg.mpr (floorNat_cast_le hpos)
  have hadj := sorted_getD_adj hs (⌊pos⌋.toNat)
  have := mul_nonneg hfr (sub_nonneg.mpr hadj)
  linarith

lemma interp_le_hi {s : List Rat} (hs : s.Sorted (· ≤ ·)) {pos : Rat} (hpos : 0 ≤ pos) :
    interp s pos ≤ s.getD (⌊pos⌋.toNat + 1) (s.getD (⌊pos⌋.toNat) 0) := by
  unfold interp
  dsimp only
  have hfr : pos - ((⌊pos⌋.toNat : Nat) : Rat) ≤ 1 := by
    have := lt_floorNat_cast_add_one hpos
    linarith
  have hadj := sorted_getD_adj hs (⌊pos⌋.toNat)
  have hmul : (pos - ((⌊pos⌋.toNat : Nat) : Rat)) *
      (s.getD (⌊pos⌋.toNat + 1) (s.getD (⌊pos⌋.toNat) 0) - s.getD (⌊pos⌋.toNat) 0) ≤
      1 * (s.getD (⌊pos⌋.toNat + 1) (s.getD (⌊pos⌋.toNat) 0) - s.getD (⌊pos⌋.toNat) 0) :=
    mul_le_mul_of_nonneg_right hfr (sub_nonneg.mpr hadj)
  linarith

lemma interp_mono {s : List Rat} (hs : s.Sorted (· ≤ ·)) {a b : Rat}
    (ha : 0 ≤ a) (hab : a ≤ b) (hb : b ≤ (s.length : Rat) - 1) :
    interp s a ≤ interp s b := by
  have hb0 : 0 ≤ b := le_trans ha hab
  have hfl : ⌊a⌋ ≤ ⌊b⌋ := Int.floor_le_floor hab
  have hij : ⌊a⌋.toNat ≤ ⌊b⌋.toNat := Int.toNat_le_toNat hfl
  rcases Nat.lt_or_ge (⌊a⌋.toNat) (⌊b⌋.toNat) with hlt | hge
  · -- the floor steps differ: climb through the sorted list
    have hlen1 : 1 ≤ s.length := by
      by_contra hc
      push_neg at hc
      interval_cases h : s.length
      · simp at hb
        linarith
    have hjlen : ⌊b⌋.toNat < s.length := by
      have h1 : ⌊b⌋ ≤ (s.length : Int) - 1 := by
        have : ((s.length : Rat) - 1) = (((s.length : Int) - 1 : Int) : Rat) := by
          push_cast
          ring
        rw [this] at hb
        calc ⌊b⌋ ≤ ⌊(((s.length : Int) - 1 : Int) : Rat)⌋ := Int.floor_le_floor hb
          _ = (s.length : Int) - 1 := Int.floor_intCast _
      omega
    calc interp s a
        ≤ s.getD (⌊a⌋.toNat + 1) (s.getD (⌊a⌋.toNat) 0) := interp_le_hi hs ha
      _ ≤ s.getD (⌊b⌋.toNat) 0 := sorted_getD_mono hs hlt hjlen _ _
      _ ≤ interp s b := interp_ge_lo hs hb0
  · have heq : ⌊a⌋.toNat = ⌊b⌋.toNat := le_antisymm hij hge
    unfold interp
    dsimp only
    rw [heq]
    have hadj := sorted_getD_adj hs (⌊b⌋.toNat)
    have hmul := mul_le_mul_of_nonneg_right
      (sub_le_sub_right hab ((⌊b⌋.toNat : Nat) : Rat))
      (sub_nonneg.mpr hadj)
    linarith

lemma q1Of_le_q3Of (c : ColumnD) : q1Of c ≤ q3Of c := by
  unfold q1Of q3Of quantileR
  dsimp only
  by_cases hse : ((valNums c.vals).insertionSort (fun a b => a ≤ b)).isEmpty
  · rw [if_pos hse, if_pos hse]
  · rw [if_neg hse, if_neg hse]
    have hs : ((valNums c.vals).insertionSort (fun a b => a ≤ b)).Sorted (· ≤ ·) :=
      List.sorted_insertionSort _ _
    have hlen : 1 ≤ ((valNums c.vals).insertionSort (fun a b => a ≤ b)).length := by
      rcases hm : (valNums c.vals).insertionSort (fun a b => a ≤ b) with _ | _
      · rw [hm] at hse
        simp at hse
      · simp
    have hlenr : (1 : Rat) ≤
        (((valNums c.vals).insertionSort (fun a b => a ≤ b)).length : Rat) := by
      exact_mod_cast hlen
    apply interp_mono hs
    · nlinarith
    · nlinarith
    · nlinarith

lemma valNums_cons_num (q : Rat) (l : List Val) :
    valNums (Val.num q :: l) = q :: valNums l := rfl

lemma valNums_map_numf (f : Rat → Rat) (vs : List Val) :
    valNums (vs.map (fun v => match v with | Val.num q => Val.num (f q) | other => other)) =
      (valNums vs).map f := by
  induction vs with
  | nil => rfl
  | cons v rest ih =>
    cases v with
    | na => simpa [valNums, List.filterMap_cons] using ih
    | str t => simpa [valNums, List.filterMap_cons] using ih
    | dt d => simpa [valNums, List.filterMap_cons] using ih
    | num q =>
      rw [List.map_cons]
      rw [show (match Val.num q with | Val.num q => Val.num (f q) | other => other) =
        Val.num (f q) from rfl]
      rw [valNums_cons_num, valNums_cons_num, List.map_cons, ih]

lemma findCol_map_set_other (cols : List ColumnD) (nm nm' : String) (k : DKind)
    (vs : List Val) (hne : nm' ≠ nm) :
    findCol (cols.map (fun c => if c.name = nm then { c with dtype := k, vals := vs } else c))
      nm' = findCol cols nm' := by
  induction cols with
  | nil => rfl
  | cons c rest ih =>
    rw [List.map_cons]
    by_cases h : c.name = nm
    · have hne2 : ¬ c.name = nm' := fun hc => hne (hc ▸ h ▸ rfl)
      rw [if_pos h]
      show (if c.name = nm' then _ else _) = _
      rw [if_neg hne2, findCol, if_neg hne2]
      exact ih
    · rw [if_neg h]
      by_cases h2 : c.name = nm'
      · rw [findCol, if_pos h2, findCol, if_pos h2]
      · rw [findCol, if_neg h2, findCol, if_neg h2]
        exact ih

lemma findCol_map_set_self (cols : List ColumnD) (nm : String) (k : DKind)
    (vs : List Val) {c : ColumnD}
    (hfind : findCol cols nm = some c) :
    findCol (cols.map (fun c0 => if c0.name = nm then { c0 with dtype := k, vals := vs }
      else c0)) nm = some { c with dtype := k, vals := vs } := by
  induction cols with
  | nil => simp [findCol] at hfind
  | cons c0 rest ih =>
    rw [List.map_cons]
    by_cases h : c0.name = nm
    · rw [findCol, if_pos h] at hfind
      injection hfind with hc
      subst hc
      rw [if_pos h]
      show (if c0.name = nm then _ else _) = _
      rw [if_pos h]
    · rw [findCol, if_neg h] at hfind
      rw [if_neg h, findCol, if_neg h]
      exact ih hfind

lemma getCol_setColVals_other (df : DF) (nm nm' : String) (k : DKind) (vs : List Val)
    (hne : nm' ≠ nm) : getCol (setColVals df nm k vs) nm' = getCol df nm' :=
  findCol_map_set_other df.cols nm nm' k vs hne

lemma getCol_setColVals_self (df : DF) (nm : String) (k : DKind) (vs : List Val)
    {c : ColumnD} (hg : getCol df nm = some c) :
    getCol (setColVals df nm k vs) nm = some { c with dtype := k, vals := vs } :=
  findCol_map_set_self df.cols nm k vs hg

lemma setColVals_nrows (df : DF) (nm : String) (k : DKind) (vs : List Val) :
    (setColVals df nm k vs).nrows = df.nrows := rfl

lemma capCol_nrows (nm : String) (df : DF) : (capCol nm df).1.nrows = df.nrows := by
  unfold capCol
  rcases getCol df nm with _ | c
  · rfl
  · show (capColGo nm df c).1.nrows = df.nrows
    unfold capColGo
    by_cases h1 : q3Of c - q1Of c = 0
    · rw [if_pos h1]
    · rw [if_neg h1]
      by_cases h2 : ((valNums c.vals).filter
          (fun x => decide (x < lowerOf c ∨ x > upperOf c))).length = 0
      · rw [if_pos h2]
      · rw [if_neg h2]
        rfl

lemma capCol_getCol_other (nm nm' : String) (df : DF) (hne : nm' ≠ nm) :
    getCol (capCol nm df).1 nm' = getCol df nm' := by
  unfold capCol
  rcases getCol df nm with _ | c
  · rfl
  · show getCol (capColGo nm df c).1 nm' = getCol df nm'
    unfold capColGo
    by_cases h1 : q3Of c - q1Of c = 0
    · rw [if_pos h1]
    · rw [if_neg h1]
      by_cases h2 : ((valNums c.vals).filter
          (fun x => decide (x < lowerOf c ∨ x > upperOf c))).length = 0
      · rw [if_pos h2]
      · rw [if_neg h2]
        exact getCol_setColVals_other df nm nm' _ _ hne

lemma capCol_self (nm : String) (df : DF) (c : ColumnD) (hg : getCol df nm = some c) :
    (q3Of c - q1Of c = 0 → (capCol nm df).1 = df) ∧
    (q3Of c - q1Of c ≠ 0 → ∃ c2, getCol (capCol nm df).1 nm = some c2 ∧
      c2.vals.length = c.vals.length ∧
      ∀ x ∈ valNums c2.vals, lowerOf c ≤ x ∧ x ≤ upperOf c) := by
  have hlu : lowerOf c ≤ upperOf c := by
    have := q1Of_le_q3Of c
    unfold lowerOf upperOf
    linarith
  constructor
  · intro h0
    unfold capCol
    rw [hg]
    show (capColGo nm df c).1 = df
    unfold capColGo
    rw [if_pos h0]
  · intro h0
    unfold capCol
    rw [hg]
    show ∃ c2, getCol (capColGo nm df c).1 nm = some c2 ∧
      c2.vals.length = c.vals.length ∧
      ∀ x ∈ valNums c2.vals, lowerOf c ≤ x ∧ x ≤ upperOf c
    unfold capColGo
    rw [if_neg h0]
    by_cases h2 : ((valNums c.vals).filter
        (fun x => decide (x < lowerOf c ∨ x > upperOf c))).length = 0
    · rw [if_pos h2]
      refine ⟨c, hg, rfl, ?_⟩
      intro x hx
      have hfil : (valNums c.vals).filter
          (fun x => decide (x < lowerOf c ∨ x > upperOf c)) = [] :=
        List.length_eq_zero.mp h2
      have hcon : ¬ (x < lowerOf c ∨ x > upperOf c) := by
        intro hcon
        have hmem : x ∈ (valNums c.vals).filter
            (fun x => decide (x < lowerOf c ∨ x > upperOf c)) :=
          List.mem_filter.mpr ⟨hx, by simpa using hcon⟩
        rw [hfil] at hmem
        cases hmem
      push_neg at hcon
      exact ⟨hcon.1, hcon.2⟩
    · rw [if_neg h2]
      refine ⟨_, getCol_setColVals_self df nm c.dtype _ hg, ?_, ?_⟩
      · exact List.length_map _ _
      · show ∀ x ∈ valNums (c.vals.map (fun v => match v with
          | Val.num q => Val.num (min (max q (lowerOf c)) (upperOf c))
          | other => other)), lowerOf c ≤ x ∧ x ≤ upperOf c
        rw [valNums_map_numf (fun q => min (max q (lowerOf c)) (upperOf c)) c.vals]
        intro x hx
        obtain ⟨q, _, rfl⟩ := List.mem_map.mp hx
        exact ⟨le_min (le_max_right q (lowerOf c)) hlu, min_le_right _ _⟩

lemma runCols_fst_aux (step : String → DF → DF × List CLog) (cols : List String) :
    ∀ (df : DF) (l1 l2 : List CLog),
      (cols.foldl (fun acc nm => ((step nm acc.1).1, acc.2 ++ (step nm acc.1).2)) (df, l1)).1 =
      (cols.foldl (fun acc nm => ((step nm acc.1).1, acc.2 ++ (step nm acc.1).2)) (df, l2)).1 := by
  induction cols with
  | nil => intro df l1 l2; rfl
  | cons x rest ih =>
    intro df l1 l2
    simp only [List.foldl_cons]
    exact ih _ _ _

lemma runCols_cons_fst (step : String → DF → DF × List CLog) (x : String)
    (rest : List String) (df : DF) :
    (runCols step (x :: rest) df).1 = (runCols step rest (step x df).1).1 := by
  unfold runCols
  simp only [List.foldl_cons]
  exact runCols_fst_aux step rest _ _ []

lemma runCols_capCol_other (cols : List String) (df : DF) (nm' : String) (h : nm' ∉ cols) :
    getCol (runCols capCol cols df).1 nm' = getCol df nm' := by
  induction cols generalizing df with
  | nil => rfl
  | cons x rest ih =>
    rw [runCols_cons_fst]
    have hx : nm' ≠ x := fun hc => h (hc ▸ List.mem_cons_self x rest)
    rw [ih _ (fun hc => h (List.mem_cons_of_mem _ hc)), capCol_getCol_other x nm' df hx]

lemma runCols_capCol_nrows (cols : List String) (df : DF) :
    (runCols capCol cols df).1.nrows = df.nrows := by
  induction cols generalizing df with
  | nil => rfl
  | cons x rest ih =>
    rw [runCols_cons_fst, ih, capCol_nrows]

lemma cap_stage_mem (cols : List String) : ∀ (df : DF), cols.Nodup →
    ∀ nm ∈ cols, ∀ c, getCol df nm = some c →
      (q3Of c - q1Of c = 0 → getCol (runCols capCol cols df).1 nm = some c) ∧
      (q3Of c - q1Of c ≠ 0 → ∃ c2, getCol (runCols capCol cols df).1 nm = some c2 ∧
        c2.vals.length = c.vals.length ∧
        ∀ x ∈ valNums c2.vals, lowerOf c ≤ x ∧ x ≤ upperOf c) := by
  induction cols with
  | nil =>
    intro df _ nm h
    cases h
  | cons x rest ih =>
    intro df hnd nm hmem c hg
    have hxrest : x ∉ rest := (List.nodup_cons.mp hnd).1
    have hndr : rest.Nodup := (List.nodup_cons.mp hnd).2
    rcases List.mem_cons.mp hmem with rfl | hmem2
    · obtain ⟨hzero, hnonzero⟩ := capCol_self nm df c hg
      constructor
      · intro h0
        rw [runCols_cons_fst, runCols_capCol_other rest _ nm hxrest, hzero h0]
        exact hg
      · intro h0
        obtain ⟨c2, hc2, hlen, hbound⟩ := hnonzero h0
        refine ⟨c2, ?_, hlen, hbound⟩
        rw [runCols_cons_fst, runCols_capCol_other rest _ nm hxrest]
        exact hc2
    · have hnmx : nm ≠ x := fun hc => hxrest (hc ▸ hmem2)
      have hg2 : getCol (capCol x df).1 nm = some c := by
        rw [capCol_getCol_other x nm df hnmx]
        exact hg
      obtain ⟨h1, h2⟩ := ih (capCol x df).1 hndr nm hmem2 c hg2
      constructor
      · intro h0
        rw [runCols_cons_fst]
        exact h1 h0
      · intro h0
        obtain ⟨c2, hc2, hlen, hbound⟩ := h2 h0
        refine ⟨c2, ?_, hlen, hbound⟩
        rw [runCols_cons_fst]
        exact hc2

/-- C7: the IQR outlier stage never changes the row count; a column whose
IQR is zero is left untouched; and after the stage every non-missing value
of a processed column lies within the clip bounds computed from that
column's values at the start of the stage. -/
theorem cap_outliers_iqr_stage (cols : List String) (df : DF) (hnd : cols.Nodup) :
    (runCols capCol cols df).1.nrows = df.nrows ∧
    ∀ nm ∈ cols, ∀ c, getCol df nm = some c →
      (q3Of c - q1Of c = 0 → getCol (runCols capCol cols df).1 nm = some c) ∧
      (q3Of c - q1Of c ≠ 0 → ∃ c2, getCol (runCols capCol cols df).1 nm = some c2 ∧
        c2.vals.length = c.vals.length ∧
        ∀ x ∈ valNums c2.vals, lowerOf c ≤ x ∧ x ≤ upperOf c) :=
  ⟨runCols_capCol_nrows cols df, cap_stage_mem cols df hnd⟩

/-- The concrete outlier scenario of the spec: [1, 2, 3, 4, 100]. -/
def colOut : ColumnD :=
  ⟨"v", DKind.numK, [Val.num 1, Val.num 2, Val.num 3, Val.num 4, Val.num 100]⟩

def dfOut : DF := ⟨5, [colOut]⟩

/-- C7 (witness): the stage theorem applied to the concrete column
[1, 2, 3, 4, 100] (Q1 = 2, Q3 = 4, bounds [-1, 7]): the row count stays 5
and every value after the stage lies within the bounds. -/
theorem cap_outliers_iqr_stage_witness :
    (runCols capCol ["v"] dfOut).1.nrows = 5 ∧
    ∃ c2, getCol (runCols capCol ["v"] dfOut).1 "v" = some c2 ∧
      c2.vals.length = 5 ∧
      ∀ x ∈ valNums c2.vals, lowerOf colOut ≤ x ∧ x ≤ upperOf colOut := by
  obtain ⟨hn, hm⟩ := cap_outliers_iqr_stage ["v"] dfOut (by decide)
  refine ⟨hn, ?_⟩
  have h2 := (hm "v" (by decide) colOut rfl).2 (by with_unfolding_all decide)
  exact h2

/-- C4 (amended): log entries follow each stage's own change counter, not
actual data change.  Categorical standardization (which rewrites the column
unconditionally) logs exactly when the transform strictly reduced the
distinct count, so a value change that preserves the distinct count goes
unlogged; min-max normalization logs exactly when max - min is nonzero (or
the column is all-missing), even when the rescaling is the identity. -/
theorem clean_log_conditions (df : DF) (nm : String) :
    ((stdizeCol nm df).2 ≠ [] ↔
      ∃ c, getCol df nm = some c ∧ c.dtype = DKind.strK ∧
        nuniqueOf (dropNa (stdTransform c.vals)) < nuniqueOf (dropNa c.vals)) ∧
    ((minmaxCol nm df).2 ≠ [] ↔
      ∃ c, getCol df nm = some c ∧
        (valNums c.vals = [] ∨ ratMaxD (valNums c.vals) - ratMinD (valNums c.vals) ≠ 0)) := by
  constructor
  · rcases hg : getCol df nm with _ | c
    · simp [stdizeCol, hg]
    · simp only [stdizeCol, hg]
      unfold stdizeColGo
      by_cases hk : c.dtype == DKind.strK
      · have hkp : c.dtype = DKind.strK := by simpa using hk
        rw [if_pos hk]
        by_cases hlt : nuniqueOf (dropNa (stdTransform c.vals)) < nuniqueOf (dropNa c.vals)
        · rw [if_pos hlt]
          simp [hkp, hlt]
        · rw [if_neg hlt]
          simp [hkp, hlt]
      · have hkp : ¬ c.dtype = DKind.strK := by simpa using hk
        rw [if_neg hk]
        simp [hkp]
  · rcases hg : getCol df nm with _ | c
    · simp [minmaxCol, hg]
    · simp only [minmaxCol, hg]
      unfold minmaxColGo
      by_cases he : (valNums c.vals).isEmpty
      · rw [if_pos he]
        rw [List.isEmpty_iff] at he
        simp [he]
      · rw [if_neg he]
        rw [List.isEmpty_iff] at he
        by_cases hz : ratMaxD (valNums c.vals) - ratMinD (valNums c.vals) = 0
        · rw [if_pos hz]
          simp [he, hz]
        · rw [if_neg hz]
          simp [he, hz]

/-- A one-cell categorical frame whose value changes under title-casing
without changing the distinct count. -/
def dfNy : DF := ⟨1, [⟨"c", DKind.strK, [Val.str "ny"]⟩]⟩

/-- A numeric column already spanning [0, 1], on which min-max normalization
is the identity. -/
def dfUnit : DF := ⟨2, [⟨"x", DKind.numK, [Val.num 0, Val.num 1]⟩]⟩

def cfgMM : CleanConfig := ⟨"median", "Unknown", none, true, true, false⟩

/-- C4 (counterexample): the log is not appended iff the stage changed data.
Cleaning the table with the single value ny changes the value to Ny yet the
log carries no standardise_categorical entry; cleaning the numeric column
[0, 1] with min-max normalization leaves every value unchanged yet appends a
normalize_minmax entry. -/
theorem clean_log_not_iff_change :
    ((clean_dataframe dfNy defaultConfig).1.cols.map (fun c => c.vals) = [[Val.str "Ny"]] ∧
     dfNy.cols.map (fun c => c.vals) = [[Val.str "ny"]] ∧
     (clean_dataframe dfNy defaultConfig).2.filter
       (fun l => l.action == "standardise_categorical") = []) ∧
    ((clean_dataframe dfUnit cfgMM).1.cols.map (fun c => c.vals) =
       dfUnit.cols.map (fun c => c.vals) ∧
     ((clean_dataframe dfUnit cfgMM).2.filter
       (fun l => l.action == "normalize_minmax")).length = 1) := by
  with_unfolding_all decide

/-- A categorical column whose variants collapse under standardization. -/
def dfStdW : DF := ⟨2, [⟨"c", DKind.strK, [Val.str "ny", Val.str " NY"]⟩]⟩

/-- C4 (witness): the log-condition theorem applied concretely: the column
[ny, space-NY] collapses to one distinct value, so the stage logs; and on
dfUnit the min-max stage logs because max - min is nonzero. -/
theorem clean_log_conditions_witness :
    (stdizeCol "c" dfStdW).2 ≠ [] ∧ (minmaxCol "x" dfUnit).2 ≠ [] :=
  ⟨(clean_log_conditions dfStdW "c").1.mpr
      ⟨⟨"c", DKind.strK, [Val.str "ny", Val.str " NY"]⟩, rfl, rfl, by decide⟩,
   (clean_log_conditions dfUnit "x").2.mpr
      ⟨⟨"x", DKind.numK, [Val.num 0, Val.num 1]⟩, rfl,
       Or.inr (by with_unfolding_all decide)⟩⟩
